import Mathlib

/-!
# permstable: rendering and splicing of the permissions resource table

A verification development for `internal/website/permstable/permstable.go`.

Modelling conventions.

* A Go `string` is modelled as a list of characters (`Str`).  Every string
  literal of the program is ASCII, and on ASCII text the byte view of Go
  (`len`, `s[:1]`, `s[1:]`) coincides with the character view used here.
  Splitting at the ASCII separator `"\n"` and searching an ASCII marker give the
  same result on the bytes of a UTF-8 text and on its characters.
* `fmt.Sprintf` with only `%s` verbs is concatenation.
* A Go `map[string]string` is an association list; the order of the list
  stands for the (unspecified) iteration order of the map.
* A run-time panic (slice bounds out of range) is the value `none`.
* The functions of Go's standard library (`strings`, `sort`) are modelled
  from their documented behaviour.
* Case mapping comes in two forms.  `ToUpper`, `ToLower`, `toSentenceCase` and
  `slug` are the ASCII forms: they are what Go computes on ASCII labels, which
  is what every label of the fixed catalog is, and they are used wherever a
  text is evaluated.  `ToUpperUTF8`, `ToLowerUTF8`, `toSentenceCaseUTF8` and
  `slugUTF8` are the forms for arbitrary UTF-8 labels: they follow the byte
  slicing of `s[:1]` and `s[1:]` and take the case tables of Go's `unicode`
  package, which are not part of the repository, as parameters.  The two forms
  agree on ASCII labels.
-/

namespace Permstable

/-- Go strings, as lists of characters. -/
abbrev Str := List Char

/-! ## The parts of Go's `strings` and `sort` packages that the program uses -/

/-- `strings.HasPrefix(s, prefix)`. -/
def HasPrefix : Str → Str → Bool
  | _, [] => true
  | [], _ :: _ => false
  | c :: cs, p :: ps => c == p && HasPrefix cs ps

/-- `strings.Contains(s, substr)`: some suffix of `s` starts with `substr`. -/
def Contains : Str → Str → Bool
  | [], substr => HasPrefix [] substr
  | c :: cs, substr => HasPrefix (c :: cs) substr || Contains cs substr

/-- `strings.Join(elems, sep)`. -/
def Join : List Str → Str → Str
  | [], _ => []
  | [a], _ => a
  | a :: b :: rest, sep => a ++ sep ++ Join (b :: rest) sep

/-- Worker of `Split`: the first argument counts the characters of a separator
occurrence that are still to be skipped. -/
def splitAux (sep : Str) : Nat → Str → List Str
  | _, [] => [[]]
  | skip + 1, _ :: cs => splitAux sep skip cs
  | 0, c :: cs =>
    if HasPrefix (c :: cs) sep then
      [] :: splitAux sep (sep.length - 1) cs
    else
      match splitAux sep 0 cs with
      | [] => [[c]]
      | l :: ls => (c :: l) :: ls

/-- `strings.Split(s, sep)` for a non-empty separator: the pieces of `s`
between the non-overlapping occurrences of `sep`, found from the left. -/
def Split (s sep : Str) : List Str := splitAux sep 0 s

/-- Worker of `ReplaceAll`, with the same skip counter as `splitAux`. -/
def replaceAux (old new : Str) : Nat → Str → Str
  | _, [] => []
  | skip + 1, _ :: cs => replaceAux old new skip cs
  | 0, c :: cs =>
    if HasPrefix (c :: cs) old then
      new ++ replaceAux old new (old.length - 1) cs
    else
      c :: replaceAux old new 0 cs

/-- `strings.ReplaceAll(s, old, new)`, which is `strings.Replace(s, old, new, -1)`,
for a non-empty `old`: every non-overlapping occurrence of `old`, found from
the left, is replaced by `new`. -/
def ReplaceAll (s old new : Str) : Str := replaceAux old new 0 s

/-- `strings.ToUpper(s)` on ASCII text (for arbitrary text see `ToUpperUTF8`). -/
def ToUpper (s : Str) : Str := s.map Char.toUpper

/-- `strings.ToLower(s)` on ASCII text (for arbitrary text see `ToLowerUTF8`). -/
def ToLower (s : Str) : Str := s.map Char.toLower

/-- `strings.Repeat(s, count)`. -/
def Repeat (s : Str) : Nat → Str
  | 0 => []
  | n + 1 => s ++ Repeat s n

/-- `unicode.IsSpace`: the white space characters of Unicode. -/
def isSpace (c : Char) : Bool :=
  let n := c.toNat
  (9 ≤ n && n ≤ 13) || n == 32 || n == 0x85 || n == 0xA0 || n == 0x1680 ||
  (0x2000 ≤ n && n ≤ 0x200a) || n == 0x2028 || n == 0x2029 || n == 0x202f ||
  n == 0x205f || n == 0x3000

/-- `strings.TrimSpace(s)`: leading and trailing white space removed. -/
def TrimSpace (s : Str) : Str :=
  ((s.dropWhile isSpace).reverse.dropWhile isSpace).reverse

/-- `strings.TrimPrefix(s, prefix)`. -/
def TrimPrefix (s pre : Str) : Str :=
  if HasPrefix s pre then s.drop pre.length else s


/-- `sort.Strings(x)`: `x` in increasing order.  Go compares strings byte by
byte, which is the lexicographic order of lists. -/
def sortStrings (x : List Str) : List Str := x.insertionSort (· ≤ ·)

/-- Go's map index expression `m[k]`: the value stored under `k`, or the zero
value (the empty string) when `k` is not a key. -/
def mapIndex (m : List (Str × Str)) (k : Str) : Str :=
  match m.lookup k with
  | some v => v
  | none => []

/-! ## Data model (lines 15 to 49 of the source) -/

/-- The Go variable `iamScopes`. -/
def iamScopes : List Str := ["Global".toList, "Org".toList]

/-- The Go variable `infraScope`. -/
def infraScope : List Str := ["Project".toList]

/-- The Go variable `tableHeaders`. -/
def tableHeaders : List Str :=
  ["API endpoint".toList,
   "Parameters into permissions engine".toList,
   "Available actions / examples".toList]

/-- The Go struct `Action`. -/
structure Action where
  Name : Str
  Description : Str
  Examples : List Str
  deriving DecidableEq

/-- The Go struct `Endpoint`. -/
structure Endpoint where
  Path : Str
  Params : List (Str × Str)
  Actions : List Action
  deriving DecidableEq

/-- The Go struct `Resource`; the field `Type` of the source is `Typ` here,
`Type` being reserved. -/
structure Resource where
  Typ : Str
  Scopes : List Str
  Endpoints : List Endpoint
  deriving DecidableEq

/-- The Go struct `Page`. -/
structure Page where
  Resources : List Resource
  deriving DecidableEq

/-! ## Helpers (lines 208 to 231) -/

/-- The Go function `toSentenceCase` on ASCII labels (for arbitrary labels see
`toSentenceCaseUTF8`).  The slice expressions `s[:1]` and `s[1:]` panic when `s`
is empty, whatever its characters. -/
def toSentenceCase (s : Str) : Option Str :=
  if 1 ≤ s.length then some (ToUpper (s.take 1) ++ ToLower (s.drop 1)) else none

/-- The Go function `escape`. -/
def escape (s : Str) : Str :=
  let ret := ReplaceAll s "<".toList "&lt;".toList
  ReplaceAll ret ">".toList "&gt;".toList

/-- The Go function `indent`. -/
def indent (num : Nat) : Str := Repeat " ".toList num

/-- The Go function `sortedKeys`: the keys are collected in the iteration order
of the map and then sorted. -/
def sortedKeys (m : List (Str × Str)) : List Str :=
  let out := m.foldl (fun out kv => out ++ [kv.1]) []
  sortStrings out

/-! ## Rendering (lines 114 to 206) -/

/-- The parameters cell built by `Endpoint.Marshal` (the variable `pString`). -/
def Endpoint.pString (e : Endpoint) : Str :=
  let pString := (sortedKeys e.Params).foldl
    (fun pString v =>
      let pString := pString ++ "<li>".toList ++ v ++ "</li>".toList
      pString ++ "<ul><li><code>".toList ++ escape (mapIndex e.Params v) ++
        "</code></li></ul>".toList)
    "<ul>".toList
  pString ++ "</ul>".toList

/-- The examples list built by `Endpoint.Marshal` for one action (the variable
`eString`). -/
def Action.eString (v : Action) : Str :=
  let eString := v.Examples.foldl
    (fun eString x => eString ++ "<li>`".toList ++ x ++ "`</li>".toList)
    "<ul>".toList
  eString ++ "</ul>".toList

/-- The actions cell built by `Endpoint.Marshal` (the variable `aString`). -/
def Endpoint.aString (e : Endpoint) : Str :=
  let aString := e.Actions.foldl
    (fun aString v =>
      let aString := aString ++ "<li><code>".toList ++ escape v.Name ++
        "</code>: ".toList ++ v.Description ++ "</li>".toList
      aString ++ v.eString)
    "<ul>".toList
  aString ++ "</ul>".toList

/-- The three cells collected by `Endpoint.Marshal` (the variable `row`). -/
def Endpoint.row (e : Endpoint) : List Str :=
  let row : List Str := []
  let row := row ++ ["<code>".toList ++ escape e.Path ++ "</code>".toList]
  let row := row ++ [e.pString]
  row ++ [e.aString]

/-- The Go method `(*Endpoint).Marshal`. -/
def Endpoint.Marshal (e : Endpoint) : List Str :=
  let ret : List Str := []
  ret ++ ["| ".toList ++ Join e.row " | ".toList ++ " |".toList]

/-- The Go method `(*Resource).Marshal`. -/
def Resource.Marshal (r : Resource) : Option (List Str) := do
  let ret : List Str := []
  -- Section Header
  let h ← toSentenceCase r.Typ
  let ret := ret ++ ["## ".toList ++ h ++ "\n".toList]
  -- Scopes information
  let scopes := r.Scopes.foldl
    (fun scopes s => scopes ++ ["**".toList ++ s ++ "**".toList]) []
  let h ← toSentenceCase r.Typ
  let ret := ret ++ ["The **".toList ++ h ++
    "** resource type supports the following scopes: ".toList ++
    TrimSpace (Join scopes ", ".toList) ++ "\n".toList]
  -- Table Header
  let ret := ret ++ ["| ".toList ++ Join tableHeaders " | ".toList ++ " |".toList]
  let headerSeparators := tableHeaders.foldl
    (fun headerSeparators t => headerSeparators ++ [Repeat "-".toList t.length]) []
  let ret := ret ++ ["| ".toList ++ Join headerSeparators " | ".toList ++ " |".toList]
  -- Table Body
  let ret := r.Endpoints.foldl (fun ret v => ret ++ v.Marshal) ret
  pure ret

/-- The anchor of a table-of-contents line on ASCII labels (for arbitrary
labels see `slugUTF8`):
`strings.ReplaceAll(strings.ToLower(v.Type), " ", "-")`. -/
def slug (typ : Str) : Str := ReplaceAll (ToLower typ) " ".toList "-".toList

/-- The Go method `(*Page).MarshalTableOfContents`. -/
def Page.MarshalTableOfContents (p : Page) : Option (List Str) :=
  p.Resources.foldlM
    (fun ret v => do
      let h ← toSentenceCase v.Typ
      pure (ret ++ ["- [".toList ++ h ++ "](#".toList ++ slug v.Typ ++ ")".toList]))
    []

/-- The Go method `(*Page).MarshalBody`. -/
def Page.MarshalBody (p : Page) : Option (List Str) :=
  p.Resources.foldlM
    (fun ret v => do
      let m ← v.Marshal
      let ret := ret ++ m
      pure (ret ++ [[]]))
    []

/-! ## Splicing (lines 77 to 106 of `main`) -/

/-- The first loop of `main`, over the lines from index `i` on: the state is
the pair of the variables `pre` and `marker`. -/
def beginLoop : List Str → Nat → List Str → Nat → List Str × Nat
  | [], _, pre, marker => (pre, marker)
  | line :: rest, i, pre, marker =>
    let marker := if Contains line "BEGIN TABLE".toList then i else marker
    let pre := pre ++ [line]
    if marker != 0 then (pre, marker) else beginLoop rest (i + 1) pre marker

/-- The second loop of `main`, over the lines from index `i` on (its first
argument is `lines[i:]`): the result is the final value of `marker`. -/
def endLoop : List Str → Nat → Nat → Nat
  | [], _, marker => marker
  | line :: rest, i, marker =>
    if !Contains line "END TABLE".toList then endLoop rest (i + 1) marker else i

/-- The third loop of `main` (its first argument is `lines[marker:]`). -/
def postLoop (rest : List Str) (post : List Str) : List Str :=
  rest.foldl (fun post line => post ++ [line]) post

/-- The variables `pre` and `post` of `main` after its three loops. -/
def scan (lines : List Str) : List Str × List Str :=
  let (pre, marker) := beginLoop lines 0 [] 0
  let marker := endLoop (lines.drop (marker + 1)) (marker + 1) marker
  let post := postLoop (lines.drop marker) []
  (pre, post)

/-- Lines 77 to 106 of `main`, given the rendered table of contents and body:
the three loops and the final `fmt.Sprintf`. -/
def spliceLines (toc body : List Str) (fileContents : Str) : Str :=
  let lines := Split fileContents "\n".toList
  let (pre, post) := scan lines
  Join pre "\n".toList ++ "\n\n".toList ++ Join toc "\n".toList ++ "\n\n".toList ++
    Join body "\n".toList ++ "\n\n".toList ++ Join post "\n".toList

/-- Lines 77 to 106 of `main` for an arbitrary page: the text written back to
the file, given the text read from it. -/
def splice (page : Page) (fileContents : Str) : Option Str := do
  let toc ← page.MarshalTableOfContents
  let body ← page.MarshalBody
  pure (spliceLines toc body fileContents)

/-! ## Action constructors (lines 233 to 289) -/

/-- The Go function `lActions`. -/
def lActions (typ : Str) : List Action :=
  let listVersion := TrimPrefix (TrimPrefix typ "an ".toList) "a ".toList
  [{ Name := "list".toList,
     Description := "List ".toList ++ listVersion ++ "s".toList,
     Examples := ["type=<type>;actions=list".toList] }]

/-- The Go function `clActions`. -/
def clActions (typ : Str) : List Action :=
  [{ Name := "create".toList,
     Description := "Create ".toList ++ typ,
     Examples := ["type=<type>;actions=create".toList] }] ++ lActions typ

/-- The Go statement `ret[i].Examples = append(ret[i].Examples, x)`. -/
def appendExample (ret : List Action) (i : Nat) (x : Str) : List Action :=
  ret.modify (fun a => { a with Examples := a.Examples ++ [x] }) i

/-- The Go function `rudActions`. -/
def rudActions (typ : Str) (pin : Bool) : List Action :=
  let ret : List Action :=
    [{ Name := "read".toList,
       Description := "Read ".toList ++ typ,
       Examples := ["ids=<id>;actions=read".toList] },
     { Name := "update".toList,
       Description := "Update ".toList ++ typ,
       Examples := ["ids=<id>;actions=update".toList] },
     { Name := "delete".toList,
       Description := "Delete ".toList ++ typ,
       Examples := ["ids=<id>;actions=delete".toList] }]
  if pin then
    let ret := appendExample ret 0 "ids=<pin>;type=<type>;actions=read".toList
    let ret := appendExample ret 1 "ids=<pin>;type=<type>;actions=update".toList
    appendExample ret 2 "ids=<pin>;type=<type>;actions=delete".toList
  else
    ret

/-! ## The fixed catalog (lines 291 to 956) -/

/-- The Go variable `account`. -/
def account : Resource :=
  { Typ := "Account".toList,
    Scopes := iamScopes,
    Endpoints := [
      { Path := "/accounts".toList,
        Params := [
          ("Type".toList, "account".toList)],
        Actions := clActions "an account".toList },
      { Path := "/accounts/<id>".toList,
        Params := [
          ("ID".toList, "<id>".toList),
          ("Type".toList, "account".toList),
          ("Pin".toList, "<auth-method-id>".toList)],
        Actions := rudActions "an account".toList true ++
          [
            { Name := "set-password".toList,
              Description := "Set a password on an account, without requiring the current password".toList,
              Examples := [
                "ids=<id>;actions=set-password".toList,
                "ids=<pin>;type=<type>;actions=set-password".toList] },
            { Name := "change-password".toList,
              Description := "Change a password on an account given the current password".toList,
              Examples := [
                "ids=<id>;actions=change-password".toList,
                "ids=<pin>;type=<type>;actions=change-password".toList] }] }] }

/-- The Go variable `authMethod`. -/
def authMethod : Resource :=
  { Typ := "Auth Method".toList,
    Scopes := iamScopes,
    Endpoints := [
      { Path := "/auth-methods".toList,
        Params := [
          ("Type".toList, "auth-method".toList)],
        Actions := clActions "an auth method".toList },
      { Path := "/auth-methods/<id>".toList,
        Params := [
          ("ID".toList, "<id>".toList),
          ("Type".toList, "auth-method".toList)],
        Actions := rudActions "an auth method".toList false ++
          [
            { Name := "authenticate".toList,
              Description := "Authenticate to an auth method".toList,
              Examples := ["ids=<id>;actions=authenticate".toList] }] }] }

/-- The Go variable `authToken`. -/
def authToken : Resource :=
  { Typ := "Auth Token".toList,
    Scopes := iamScopes,
    Endpoints := [
      { Path := "/auth-tokens".toList,
        Params := [
          ("Type".toList, "auth-token".toList)],
        Actions := [
          { Name := "list".toList,
            Description := "List auth tokens".toList,
            Examples := ["type=<type>;actions=list".toList] }] },
      { Path := "/auth-tokens/<id>".toList,
        Params := [
          ("ID".toList, "<id>".toList),
          ("Type".toList, "auth-token".toList)],
        Actions := [
          { Name := "read".toList,
            Description := "Read an auth token".toList,
            Examples := ["ids=<id>;actions=read".toList] },
          { Name := "delete".toList,
            Description := "Delete an auth token".toList,
            Examples := ["ids=<id>;actions=delete".toList] }] }] }

/-- The Go variable `group`. -/
def group : Resource :=
  { Typ := "Group".toList,
    Scopes := iamScopes ++ infraScope,
    Endpoints := [
      { Path := "/groups".toList,
        Params := [
          ("Type".toList, "group".toList)],
        Actions := clActions "a group".toList },
      { Path := "/groups/<id>".toList,
        Params := [
          ("ID".toList, "<id>".toList),
          ("Type".toList, "group".toList)],
        Actions := rudActions "a group".toList false ++
          [
            { Name := "add-members".toList,
              Description := "Add members to a group".toList,
              Examples := ["ids=<id>;actions=add-members".toList] },
            { Name := "set-members".toList,
              Description := "Set the full set of members on a group".toList,
              Examples := ["ids=<id>;actions=set-members".toList] },
            { Name := "remove-members".toList,
              Description := "Remove members from a group".toList,
              Examples := ["ids=<id>;actions=remove-members".toList] }] }] }

/-- The Go variable `host`. -/
def host : Resource :=
  { Typ := "Host".toList,
    Scopes := infraScope,
    Endpoints := [
      { Path := "/hosts".toList,
        Params := [
          ("Type".toList, "host".toList)],
        Actions := clActions "a host".toList },
      { Path := "/hosts/<id>".toList,
        Params := [
          ("ID".toList, "<id>".toList),
          ("Type".toList, "host".toList),
          ("Pin".toList, "<host-catalog-id>".toList)],
        Actions := rudActions "a host".toList true }] }

/-- The Go variable `hostCatalog`. -/
def hostCatalog : Resource :=
  { Typ := "Host Catalog".toList,
    Scopes := infraScope,
    Endpoints := [
      { Path := "/host-catalogs".toList,
        Params := [
          ("Type".toList, "host-catalog".toList)],
        Actions := clActions "a host catalog".toList },
      { Path := "/host-catalogs/<id>".toList,
        Params := [
          ("ID".toList, "<id>".toList),
          ("Type".toList, "host-catalog".toList)],
        Actions := rudActions "a host catalog".toList false }] }

/-- The Go variable `hostSet`. -/
def hostSet : Resource :=
  { Typ := "Host Set".toList,
    Scopes := infraScope,
    Endpoints := [
      { Path := "/host-sets".toList,
        Params := [
          ("Type".toList, "host-set".toList)],
        Actions := clActions "a host set".toList },
      { Path := "/host-sets/<id>".toList,
        Params := [
          ("ID".toList, "<id>".toList),
          ("Type".toList, "host-set".toList),
          ("Pin".toList, "<host-catalog-id>".toList)],
        Actions := rudActions "a host set".toList true ++
          [
            { Name := "add-hosts".toList,
              Description := "Add hosts to a host-set".toList,
              Examples := [
                "ids=<id>;actions=add-hosts".toList,
                "ids=<pin>;type=<type>;actions=add-hosts".toList] },
            { Name := "set-hosts".toList,
              Description := "Set the full set of hosts on a host set".toList,
              Examples := [
                "ids=<id>;actions=set-hosts".toList,
                "ids=<pin>;type=<type>;actions=set-hosts".toList] },
            { Name := "remove-hosts".toList,
              Description := "Remove hosts from a host set".toList,
              Examples := [
                "ids=<id>;actions=remove-hosts".toList,
                "ids=<pin>;type=<type>;actions=remove-hosts".toList] }] }] }

/-- The Go variable `managedGroup`. -/
def managedGroup : Resource :=
  { Typ := "Managed Group".toList,
    Scopes := iamScopes,
    Endpoints := [
      { Path := "/managed-groups".toList,
        Params := [
          ("Type".toList, "managed-group".toList)],
        Actions := clActions "a managed group".toList },
      { Path := "/managed-groups/<id>".toList,
        Params := [
          ("ID".toList, "<id>".toList),
          ("Type".toList, "managed-group".toList),
          ("Pin".toList, "<auth-method-id>".toList)],
        Actions := rudActions "a managed group".toList true }] }

/-- The Go variable `role`. -/
def role : Resource :=
  { Typ := "Role".toList,
    Scopes := iamScopes ++ infraScope,
    Endpoints := [
      { Path := "/roles".toList,
        Params := [
          ("Type".toList, "role".toList)],
        Actions := clActions "a role".toList },
      { Path := "/roles/<id>".toList,
        Params := [
          ("ID".toList, "<id>".toList),
          ("Type".toList, "role".toList)],
        Actions := rudActions "a role".toList false ++
          [
            { Name := "add-principals".toList,
              Description := "Add principals to a role".toList,
              Examples := ["ids=<id>;actions=add-principals".toList] },
            { Name := "set-principals".toList,
              Description := "Set the full set of principals on a role".toList,
              Examples := ["ids=<id>;actions=set-principals".toList] },
            { Name := "remove-principals".toList,
              Description := "Remove principals from a role".toList,
              Examples := ["ids=<id>;actions=remove-principals".toList] },
            { Name := "add-grants".toList,
              Description := "Add grants to a role".toList,
              Examples := ["ids=<id>;actions=add-grants".toList] },
            { Name := "set-grants".toList,
              Description := "Set the full set of grants on a role".toList,
              Examples := ["ids=<id>;actions=set-grants".toList] },
            { Name := "remove-grants".toList,
              Description := "Remove grants from a role".toList,
              Examples := ["ids=<id>;actions=remove-grants".toList] }] }] }

/-- The Go variable `scope`. -/
def scope : Resource :=
  { Typ := "Scope".toList,
    Scopes := iamScopes,
    Endpoints := [
      { Path := "/scopes".toList,
        Params := [
          ("Type".toList, "scope".toList)],
        Actions := clActions "a scope".toList },
      { Path := "/scopes/<id>".toList,
        Params := [
          ("ID".toList, "<id>".toList),
          ("Type".toList, "scope".toList)],
        Actions := rudActions "a scope".toList false }] }

/-- The Go variable `session`. -/
def session : Resource :=
  { Typ := "Session".toList,
    Scopes := infraScope,
    Endpoints := [
      { Path := "/sessions".toList,
        Params := [
          ("Type".toList, "session".toList)],
        Actions := [
          { Name := "list".toList,
            Description := "List sessions".toList,
            Examples := ["type=<type>;actions=list".toList] }] },
      { Path := "/session/<id>".toList,
        Params := [
          ("ID".toList, "<id>".toList),
          ("Type".toList, "session".toList)],
        Actions := [
          { Name := "read".toList,
            Description := "Read a session".toList,
            Examples := ["ids=<id>;actions=read".toList] },
          { Name := "cancel".toList,
            Description := "Cancel a session".toList,
            Examples := ["ids=<id>;actions=cancel".toList] },
          { Name := "read:self".toList,
            Description := "Read a session, which must be associated with the calling user".toList,
            Examples := ["ids=*;type=session;actions=read:self".toList] },
          { Name := "cancel:self".toList,
            Description := "Cancel a session, which must be associated with the calling user".toList,
            Examples := ["ids=*;type=session;actions=cancel:self".toList] }] }] }

/-- The Go variable `sessionRecording`. -/
def sessionRecording : Resource :=
  { Typ := "Session Recording".toList,
    Scopes := iamScopes,
    Endpoints := [
      { Path := "/session-recordings".toList,
        Params := [
          ("Type".toList, "session-recording".toList)],
        Actions := [
          { Name := "list".toList,
            Description := "List session recordings".toList,
            Examples := ["type=<type>;actions=list".toList] }] },
      { Path := "/session-recordings/<id>".toList,
        Params := [
          ("ID".toList, "<id>".toList),
          ("Type".toList, "session-recording".toList)],
        Actions := [
          { Name := "read".toList,
            Description := "Read a session recording".toList,
            Examples := ["ids=<id>;actions=read".toList] },
          { Name := "download".toList,
            Description := "Download a session recording".toList,
            Examples := ["ids=<id>;actions=download".toList] },
          { Name := "reapply-storage-policy".toList,
            Description := "Reapply the storage policy to a session recording".toList,
            Examples := ["ids=<id>;actions=reapply-storage-policy".toList] },
          { Name := "delete".toList,
            Description := "Delete a session recording".toList,
            Examples := ["ids=<id>;actions=delete".toList] }] }] }

/-- The Go variable `storageBucket`. -/
def storageBucket : Resource :=
  { Typ := "Storage Bucket".toList,
    Scopes := iamScopes,
    Endpoints := [
      { Path := "/storage-buckets".toList,
        Params := [
          ("Type".toList, "storage-bucket".toList)],
        Actions := clActions "a storage bucket".toList },
      { Path := "/storage-buckets/<id>".toList,
        Params := [
          ("ID".toList, "<id>".toList),
          ("Type".toList, "storage-bucket".toList)],
        Actions := rudActions "a storage bucket".toList false }] }

/-- The Go variable `target`. -/
def target : Resource :=
  { Typ := "Target".toList,
    Scopes := infraScope,
    Endpoints := [
      { Path := "/targets".toList,
        Params := [
          ("Type".toList, "target".toList)],
        Actions := clActions "a target".toList },
      { Path := "/targets/<id>".toList,
        Params := [
          ("ID".toList, "<id>".toList),
          ("Type".toList, "target".toList)],
        Actions := rudActions "a target".toList false ++
          [
            { Name := "add-host-sources".toList,
              Description := "Add host sources to a target".toList,
              Examples := ["ids=<id>;actions=add-host-sources".toList] },
            { Name := "set-host-sources".toList,
              Description := "Set the full set of host sources on a target".toList,
              Examples := ["ids=<id>;actions=set-host-sources".toList] },
            { Name := "remove-host-sources".toList,
              Description := "Remove host sources from a target".toList,
              Examples := ["ids=<id>;actions=remove-host-sources".toList] },
            { Name := "add-credential-sources".toList,
              Description := "Add credential sources to a target".toList,
              Examples := ["ids=<id>;actions=add-credential-sources".toList] },
            { Name := "set-credential-sources".toList,
              Description := "Set the full set of credential sources on a target".toList,
              Examples := ["ids=<id>;actions=set-credential-sources".toList] },
            { Name := "remove-credential-sources".toList,
              Description := "Remove credential sources from a target".toList,
              Examples := ["ids=<id>;actions=remove-credential-sources".toList] },
            { Name := "authorize-session".toList,
              Description := "Authorize a session via the target".toList,
              Examples := ["ids=<id>;actions=authorize-session".toList] }] }] }

/-- The Go variable `user`. -/
def user : Resource :=
  { Typ := "User".toList,
    Scopes := iamScopes,
    Endpoints := [
      { Path := "/users".toList,
        Params := [
          ("Type".toList, "user".toList)],
        Actions := clActions "a user".toList },
      { Path := "/users/<id>".toList,
        Params := [
          ("ID".toList, "<id>".toList),
          ("Type".toList, "user".toList)],
        Actions := rudActions "a user".toList false ++
          [
            { Name := "add-accounts".toList,
              Description := "Add accounts to a user".toList,
              Examples := ["ids=<id>;actions=add-accounts".toList] },
            { Name := "set-accounts".toList,
              Description := "Set the full set of accounts on a user".toList,
              Examples := ["ids=<id>;actions=set-accounts".toList] },
            { Name := "remove-accounts".toList,
              Description := "Remove accounts from a user".toList,
              Examples := ["ids=<id>;actions=remove-accounts".toList] }] }] }

/-- The Go variable `worker`. -/
def worker : Resource :=
  { Typ := "Worker".toList,
    Scopes := ["Global".toList],
    Endpoints := [
      { Path := "/workers".toList,
        Params := [
          ("Type".toList, "worker".toList)],
        Actions := lActions "a worker".toList ++
          [
            { Name := "create:controller-led".toList,
              Description := "Create a worker using the controller-led workflow".toList,
              Examples := [
                "type=<type>;actions=create".toList,
                "type=<type>;actions=create:controller-led".toList] },
            { Name := "create:worker-led".toList,
              Description := "Create a worker using the worker-led workflow".toList,
              Examples := [
                "type=<type>;actions=create".toList,
                "type=<type>;actions=create:worker-led".toList] }] },
      { Path := "/workers/<id>".toList,
        Params := [
          ("ID".toList, "<id>".toList),
          ("Type".toList, "worker".toList)],
        Actions := rudActions "a worker".toList false ++ [] }] }


/-- The Go variable `page` after the `append` at the head of `main`
(lines 47 to 69). -/
def page : Page :=
  { Resources := [] ++
      [account, authMethod, authToken, group, host, hostCatalog, hostSet, managedGroup,
       role, scope, session, sessionRecording, storageBucket, target, user, worker] }

/-- The Go function `main`, as a function from the text read from the file to
the text written back to it. -/
def main (fileContents : Str) : Option Str := splice page fileContents

end Permstable

/-! ## Closed forms of the rendered lines, used in the statements below -/

namespace Permstable

/-- The sentence-case form of a non-empty label: the value `toSentenceCase`
returns when it does not panic. -/
def sentenceCase (s : Str) : Str := ToUpper (s.take 1) ++ ToLower (s.drop 1)

/-- The line that `MarshalTableOfContents` emits for a type label whose
sentence-case form is `h`. -/
def tocLine (h typ : Str) : Str :=
  "- [".toList ++ h ++ "](#".toList ++ slug typ ++ ")".toList

/-- The single line that `Endpoint.Marshal` returns. -/
def Endpoint.line (e : Endpoint) : Str :=
  "| ".toList ++ Join e.row " | ".toList ++ " |".toList

/-- The four lines that `Resource.Marshal` emits before the endpoint rows. -/
def Resource.headLines (r : Resource) : List Str :=
  ["## ".toList ++ sentenceCase r.Typ ++ "\n".toList,
   "The **".toList ++ sentenceCase r.Typ ++
     "** resource type supports the following scopes: ".toList ++
     Join (r.Scopes.map (fun s => "**".toList ++ s ++ "**".toList)) ", ".toList ++ "\n".toList,
   "| API endpoint | Parameters into permissions engine | Available actions / examples |".toList,
   "| ".toList ++ List.replicate 12 '-' ++ " | ".toList ++ List.replicate 34 '-' ++
     " | ".toList ++ List.replicate 28 '-' ++ " |".toList]

/-- The lines that `Resource.Marshal` returns for a non-empty type label. -/
def Resource.lines (r : Resource) : List Str :=
  r.headLines ++ r.Endpoints.map Endpoint.line

end Permstable

namespace Permstable

/-- The one-resource catalog of the end-to-end scenario. -/
def scenarioPage : Page :=
  { Resources := [
      { Typ := "X".toList,
        Scopes := ["Global".toList],
        Endpoints := [
          { Path := "/x".toList,
            Params := [("Type".toList, "x".toList)],
            Actions := [
              { Name := "list".toList,
                Description := "List xs".toList,
                Examples := ["type=<type>;actions=list".toList] }] }] }] }

/-- The body lines rendered for the catalog of the end-to-end scenario. -/
def scenarioBody : List Str :=
  ["## X\n".toList,
   "The **X** resource type supports the following scopes: **Global**\n".toList,
   "| API endpoint | Parameters into permissions engine | Available actions / examples |".toList,
   "| ------------ | ---------------------------------- | ---------------------------- |".toList,
   ("| <code>/x</code> | <ul><li>Type</li><ul><li><code>x</code></li></ul></ul> | " ++
    "<ul><li><code>list</code>: List xs</li><ul><li>`type=<type>;actions=list`</li></ul></ul> |").toList,
   "".toList]

end Permstable

namespace Permstable

/-- The text that `escape` puts in the place of one character. -/
def escapeChar (c : Char) : Str :=
  if c = '<' then "&lt;".toList else if c = '>' then "&gt;".toList else [c]

end Permstable

namespace Permstable

/-- The removal of one leading indefinite article as the specification words
it: the prefix `an ` if the label starts with it, otherwise the prefix `a ` if
the label starts with it, otherwise nothing.  This is not the code of
`lActions`, which trims `an ` and then trims `a `. -/
def stripOneArticle (l : Str) : Str :=
  if HasPrefix l "an ".toList then l.drop 3
  else if HasPrefix l "a ".toList then l.drop 2
  else l

end Permstable

namespace Permstable

/-- Two endpoints that are equal except for the order in which their parameter
maps list the same associations (the keys of a map being unique). -/
def Endpoint.SameUpToMapOrder (e1 e2 : Endpoint) : Prop :=
  e1.Path = e2.Path ∧ e1.Actions = e2.Actions ∧ e1.Params.Perm e2.Params ∧
    (e1.Params.map Prod.fst).Nodup

/-- Two resources whose endpoints are pairwise equal up to the listing order of
their parameter maps. -/
def Resource.SameUpToMapOrder (r1 r2 : Resource) : Prop :=
  r1.Typ = r2.Typ ∧ r1.Scopes = r2.Scopes ∧
    List.Forall₂ Endpoint.SameUpToMapOrder r1.Endpoints r2.Endpoints

/-- Two catalogs whose resources are pairwise equal up to the listing order of
the parameter maps of their endpoints. -/
def Page.SameUpToMapOrder (p1 p2 : Page) : Prop :=
  List.Forall₂ Resource.SameUpToMapOrder p1.Resources p2.Resources

end Permstable

namespace Permstable

/-- A one-endpoint catalog whose parameter map lists `Type` before `ID`. -/
def typeFirstPage : Page :=
  { Resources := [
      { Typ := "X".toList,
        Scopes := [],
        Endpoints := [
          { Path := "/x".toList,
            Params := [("Type".toList, "a".toList), ("ID".toList, "b".toList)],
            Actions := [] }] }] }

/-- The catalog `typeFirstPage` with `ID` listed before `Type`. -/
def idFirstPage : Page :=
  { Resources := [
      { Typ := "X".toList,
        Scopes := [],
        Endpoints := [
          { Path := "/x".toList,
            Params := [("ID".toList, "b".toList), ("Type".toList, "a".toList)],
            Actions := [] }] }] }

end Permstable

/-! ## Labels that are not ASCII -/

namespace Permstable

/-- The rune U+FFFD, which Go's UTF-8 decoder returns for every byte that
starts no valid encoding. -/
def runeError : Char := Char.ofNat 0xFFFD

/-- The number of bytes of the UTF-8 encoding of a character. -/
def utf8Len (c : Char) : Nat :=
  if c.toNat < 0x80 then 1
  else if c.toNat < 0x800 then 2
  else if c.toNat < 0x10000 then 3
  else 4

/-- Go's `unicode.ToUpper`: the ASCII runes are mapped by the code of the
function itself, the other runes by the case tables of package `unicode`, for
which the parameter `table` stands. -/
def unicodeToUpper (table : Char → Char) (c : Char) : Char :=
  if c.toNat < 128 then Char.toUpper c else table c

/-- Go's `unicode.ToLower`, with the same parameter as `unicodeToUpper`. -/
def unicodeToLower (table : Char → Char) (c : Char) : Char :=
  if c.toNat < 128 then Char.toLower c else table c

/-- `strings.ToUpper` on the runes that Go decodes from its argument: each rune
is mapped by `unicode.ToUpper`. -/
def ToUpperUTF8 (table : Char → Char) (s : Str) : Str := s.map (unicodeToUpper table)

/-- `strings.ToLower` on the runes that Go decodes from its argument: each rune
is mapped by `unicode.ToLower`. -/
def ToLowerUTF8 (table : Char → Char) (s : Str) : Str := s.map (unicodeToLower table)

/-- The runes that Go decodes from the byte slice `s[:1]`: the first character
when it is encoded in one byte, and otherwise U+FFFD, the slice being the lone
first byte of a longer encoding. -/
def firstByte : Str → Str
  | [] => []
  | c :: _ => if c.toNat < 128 then [c] else [runeError]

/-- The runes that Go decodes from the byte slice `s[1:]`: one U+FFFD for each
byte that is left of the encoding of the first character, and then the other
characters. -/
def afterFirstByte : Str → Str
  | [] => []
  | c :: cs => List.replicate (utf8Len c - 1) runeError ++ cs

/-- The Go function `toSentenceCase` on an arbitrary UTF-8 label:
`strings.ToUpper(s[:1])` followed by `strings.ToLower(s[1:])`, and a panic when
`s` is empty. -/
def toSentenceCaseUTF8 (up lo : Char → Char) (s : Str) : Option Str :=
  if 1 ≤ s.length then some (ToUpperUTF8 up (firstByte s) ++ ToLowerUTF8 lo (afterFirstByte s))
  else none

/-- The anchor of a table-of-contents line on an arbitrary UTF-8 label:
`strings.ReplaceAll(strings.ToLower(v.Type), " ", "-")`. -/
def slugUTF8 (lo : Char → Char) (typ : Str) : Str :=
  ReplaceAll (ToLowerUTF8 lo typ) " ".toList "-".toList

/-- The Go method `(*Page).MarshalTableOfContents` on arbitrary UTF-8 labels. -/
def Page.MarshalTableOfContentsUTF8 (up lo : Char → Char) (p : Page) : Option (List Str) :=
  p.Resources.foldlM
    (fun ret v => do
      let h ← toSentenceCaseUTF8 up lo v.Typ
      pure (ret ++ ["- [".toList ++ h ++ "](#".toList ++ slugUTF8 lo v.Typ ++ ")".toList]))
    []

/-- The Go method `(*Resource).Marshal` on an arbitrary UTF-8 label. -/
def Resource.MarshalUTF8 (up lo : Char → Char) (r : Resource) : Option (List Str) := do
  let ret : List Str := []
  -- Section Header
  let h ← toSentenceCaseUTF8 up lo r.Typ
  let ret := ret ++ ["## ".toList ++ h ++ "\n".toList]
  -- Scopes information
  let scopes := r.Scopes.foldl
    (fun scopes s => scopes ++ ["**".toList ++ s ++ "**".toList]) []
  let h ← toSentenceCaseUTF8 up lo r.Typ
  let ret := ret ++ ["The **".toList ++ h ++
    "** resource type supports the following scopes: ".toList ++
    TrimSpace (Join scopes ", ".toList) ++ "\n".toList]
  -- Table Header
  let ret := ret ++ ["| ".toList ++ Join tableHeaders " | ".toList ++ " |".toList]
  let headerSeparators := tableHeaders.foldl
    (fun headerSeparators t => headerSeparators ++ [Repeat "-".toList t.length]) []
  let ret := ret ++ ["| ".toList ++ Join headerSeparators " | ".toList ++ " |".toList]
  -- Table Body
  let ret := r.Endpoints.foldl (fun ret v => ret ++ v.Marshal) ret
  pure ret

/-- The four lines that `Resource.Marshal` emits before the endpoint rows, for
a label whose sentence-case form is `sc`. -/
def Resource.headLinesOf (sc : Str) (r : Resource) : List Str :=
  ["## ".toList ++ sc ++ "\n".toList,
   "The **".toList ++ sc ++
     "** resource type supports the following scopes: ".toList ++
     Join (r.Scopes.map (fun s => "**".toList ++ s ++ "**".toList)) ", ".toList ++ "\n".toList,
   "| API endpoint | Parameters into permissions engine | Available actions / examples |".toList,
   "| ".toList ++ List.replicate 12 '-' ++ " | ".toList ++ List.replicate 34 '-' ++
     " | ".toList ++ List.replicate 28 '-' ++ " |".toList]

/-- A label made of ASCII characters only. -/
abbrev IsASCII (s : Str) : Prop := ∀ c ∈ s, c.toNat < 128

end Permstable

/-! # Theorems -/

/-! ## General facts about the loops -/

namespace Permstable

theorem foldl_append_singleton {α β : Type} (f : α → β) (xs : List α) (init : List β) :
    xs.foldl (fun acc x => acc ++ [f x]) init = init ++ xs.map f := by
  induction xs generalizing init with
  | nil => simp
  | cons x xs ih => simp [ih]

theorem foldl_append_list {α β : Type} (f : α → List β) (xs : List α) (init : List β) :
    xs.foldl (fun acc x => acc ++ f x) init = init ++ (xs.map f).flatten := by
  induction xs generalizing init with
  | nil => simp
  | cons x xs ih => simp [ih]

theorem postLoop_eq (rest post : List Str) : postLoop rest post = post ++ rest := by
  simpa using foldl_append_singleton (fun l : Str => l) rest post

/-- When no line from index `i` on contains the BEGIN marker and `marker` is
still zero, the first loop runs to the end and collects every line. -/
theorem beginLoop_absent (lines : List Str) (i : Nat) (pre : List Str)
    (h : ∀ l ∈ lines, Contains l "BEGIN TABLE".toList = false) :
    beginLoop lines i pre 0 = (pre ++ lines, 0) := by
  induction lines generalizing i pre with
  | nil => simp [beginLoop]
  | cons l ls ih =>
    have hl : Contains l "BEGIN TABLE".toList = false := h l (by simp)
    have hls : ∀ x ∈ ls, Contains x "BEGIN TABLE".toList = false :=
      fun x hx => h x (by simp [hx])
    rw [beginLoop]
    simp only [hl]
    simp [ih (i + 1) (pre ++ [l]) hls]

/-- When the first line containing the BEGIN marker has a non-zero index, the
first loop stops there: `pre` is the lines up to and including it and `marker`
is its index. -/
theorem beginLoop_found (before : List Str) (m : Str) (rest : List Str) (i : Nat)
    (pre : List Str)
    (hb : ∀ l ∈ before, Contains l "BEGIN TABLE".toList = false)
    (hm : Contains m "BEGIN TABLE".toList = true) (hpos : i + before.length ≠ 0) :
    beginLoop (before ++ m :: rest) i pre 0 = (pre ++ before ++ [m], i + before.length) := by
  induction before generalizing i pre with
  | nil =>
    have hi : i ≠ 0 := by simpa using hpos
    rw [List.nil_append, beginLoop]
    simp only [hm]
    simp [hi]
  | cons l ls ih =>
    have hl : Contains l "BEGIN TABLE".toList = false := hb l (by simp)
    have hls : ∀ x ∈ ls, Contains x "BEGIN TABLE".toList = false :=
      fun x hx => hb x (by simp [hx])
    have := ih (i + 1) (pre ++ [l]) hls (by simp)
    rw [List.cons_append, beginLoop]
    simp only [hl]
    simp [this]
    omega

/-- When no remaining line contains the END marker, the second loop leaves
`marker` unchanged. -/
theorem endLoop_absent (lines : List Str) (i marker : Nat)
    (h : ∀ l ∈ lines, Contains l "END TABLE".toList = false) :
    endLoop lines i marker = marker := by
  induction lines generalizing i with
  | nil => simp [endLoop]
  | cons l ls ih =>
    have hl : Contains l "END TABLE".toList = false := h l (by simp)
    rw [endLoop]
    simp only [hl]
    simp [ih (i + 1) (fun x hx => h x (by simp [hx]))]

/-- The second loop stops at the first remaining line that contains the END
marker and returns its index. -/
theorem endLoop_found (before : List Str) (m : Str) (rest : List Str) (i marker : Nat)
    (hb : ∀ l ∈ before, Contains l "END TABLE".toList = false)
    (hm : Contains m "END TABLE".toList = true) :
    endLoop (before ++ m :: rest) i marker = i + before.length := by
  induction before generalizing i with
  | nil =>
    rw [List.nil_append, endLoop]
    simp only [hm]
    simp
  | cons l ls ih =>
    have hl : Contains l "END TABLE".toList = false := hb l (by simp)
    rw [List.cons_append, endLoop]
    simp only [hl]
    simp [ih (i + 1) (fun x hx => hb x (by simp [hx]))]
    omega

/-- The splice of a document whose first BEGIN line has a non-zero index and is
followed by an END line: `pre` ends with the BEGIN line and `post` starts with
the first END line after it. -/
theorem scan_markers (before : List Str) (b : Str) (old : List Str) (e : Str)
    (after : List Str) (hne : before ≠ [])
    (hb : ∀ l ∈ before, Contains l "BEGIN TABLE".toList = false)
    (hm : Contains b "BEGIN TABLE".toList = true)
    (ho : ∀ l ∈ old, Contains l "END TABLE".toList = false)
    (he : Contains e "END TABLE".toList = true) :
    scan (before ++ b :: (old ++ e :: after)) = (before ++ [b], e :: after) := by
  have hlen : 0 + before.length ≠ 0 := by
    cases before with
    | nil => exact absurd rfl hne
    | cons x xs => simp
  have h1 := beginLoop_found before b (old ++ e :: after) 0 [] hb hm hlen
  have hd : List.drop (before.length + 1) (before ++ b :: (old ++ e :: after))
      = old ++ e :: after := by
    rw [show before ++ b :: (old ++ e :: after) = (before ++ [b]) ++ (old ++ e :: after) by simp]
    exact List.drop_left' (by simp)
  have h2 := endLoop_found old e after (before.length + 1) before.length ho he
  have hd2 : List.drop (before.length + 1 + old.length) (before ++ b :: (old ++ e :: after))
      = e :: after := by
    rw [show before ++ b :: (old ++ e :: after) = (before ++ [b] ++ old) ++ (e :: after) by simp]
    exact List.drop_left' (by simp; omega)
  rw [Nat.zero_add] at h1
  simp only [scan, h1, hd, h2, hd2, postLoop_eq]
  simp

/-! ## Facts about the string functions -/

theorem hasPrefix_iff (s p : Str) : HasPrefix s p = true ↔ p <+: s := by
  induction p generalizing s with
  | nil => simp [HasPrefix]
  | cons a p ih =>
    cases s with
    | nil => simp [HasPrefix]
    | cons c cs =>
      simp only [HasPrefix, Bool.and_eq_true, beq_iff_eq, ih, List.cons_prefix_cons]
      constructor
      · rintro ⟨h1, h2⟩; exact ⟨h1.symm, h2⟩
      · rintro ⟨h1, h2⟩; exact ⟨h1.symm, h2⟩

/-- The function `Contains` decides whether `substr` occurs in `s`. -/
theorem contains_iff (s substr : Str) : Contains s substr = true ↔ substr <:+: s := by
  induction s with
  | nil =>
    rw [Contains, hasPrefix_iff]
    simp [List.prefix_nil, List.infix_nil]
  | cons c cs ih =>
    rw [Contains, Bool.or_eq_true, hasPrefix_iff, ih, List.infix_cons_iff]

theorem splitAux_ne_nil (sep : Str) (k : Nat) (s : Str) : splitAux sep k s ≠ [] := by
  induction s generalizing k with
  | nil => simp [splitAux]
  | cons c cs ih =>
    cases k with
    | succ k => simpa [splitAux] using ih k
    | zero =>
      rw [splitAux]
      split
      · simp
      · split <;> simp

/-- Joining the lines of a text gives the text back. -/
theorem join_split_newline (s : Str) : Join (Split s "\n".toList) "\n".toList = s := by
  have key : ∀ s : Str, Join (splitAux ['\n'] 0 s) ['\n'] = s := by
    intro s
    induction s with
    | nil => simp [splitAux, Join]
    | cons c cs ih =>
      rw [splitAux]
      by_cases hc : c = '\n'
      · subst hc
        obtain ⟨x, xs, hx⟩ := List.exists_cons_of_ne_nil (splitAux_ne_nil ['\n'] 0 cs)
        simp only [HasPrefix, beq_self_eq_true, Bool.and_self, if_true, List.length_singleton,
          Nat.sub_self]
        rw [hx, Join, ← hx, ih]
        simp
      · have : HasPrefix (c :: cs) ['\n'] = false := by simp [HasPrefix, hc]
        simp only [this]
        obtain ⟨x, xs, hx⟩ := List.exists_cons_of_ne_nil (splitAux_ne_nil ['\n'] 0 cs)
        rw [hx] at ih ⊢
        cases xs with
        | nil => simp [Join] at ih ⊢; exact ih
        | cons y ys => simp [Join] at ih ⊢; exact ih
  exact key s

/-! ## Rendering succeeds on non-empty type labels -/

theorem toSentenceCase_of_ne_nil (s : Str) (h : s ≠ []) :
    toSentenceCase s = some (sentenceCase s) := by
  cases s with
  | nil => exact absurd rfl h
  | cons c cs => simp [toSentenceCase, sentenceCase]

theorem marshalTableOfContents_loop (rs : List Resource) (init : List Str)
    (h : ∀ r ∈ rs, r.Typ ≠ []) :
    rs.foldlM
      (fun ret v => do
        let h ← toSentenceCase v.Typ
        pure (ret ++ ["- [".toList ++ h ++ "](#".toList ++ slug v.Typ ++ ")".toList]))
      init
    = some (init ++ rs.map
        (fun r => tocLine (sentenceCase r.Typ) r.Typ)) := by
  induction rs generalizing init with
  | nil => simp
  | cons r rs ih =>
    have hr := toSentenceCase_of_ne_nil r.Typ (h r (by simp))
    simp only [List.foldlM_cons, hr, Option.pure_def, Option.bind_eq_bind,
      Option.some_bind] at ih ⊢
    rw [ih _ (fun x hx => h x (by simp [hx]))]
    simp [tocLine]

theorem marshalBody_loop (rs : List Resource) (init : List Str) (g : Resource → List Str)
    (h : ∀ r ∈ rs, r.Marshal = some (g r)) :
    rs.foldlM
      (fun ret v => do
        let m ← v.Marshal
        let ret := ret ++ m
        pure (ret ++ [[]]))
      init
    = some (init ++ (rs.map (fun r => g r ++ [[]])).flatten) := by
  induction rs generalizing init with
  | nil => simp
  | cons r rs ih =>
    simp only [List.foldlM_cons, h r (List.mem_cons_self r rs), Option.pure_def,
      Option.bind_eq_bind, Option.some_bind] at ih ⊢
    rw [ih _ (fun x hx => h x (by simp [hx]))]
    simp

theorem trimSpace_of_ends (s t u : Str) (a b : Char) (ha : isSpace a = false)
    (hb : isSpace b = false) (h1 : s = a :: t) (h2 : s = u ++ [b]) : TrimSpace s = s := by
  unfold TrimSpace
  have e1 : List.dropWhile isSpace s = s := by
    rw [h1]; simp [List.dropWhile, ha]
  rw [e1, h2]
  simp [List.dropWhile, hb]

theorem join_cons_head (c : Char) (sep : Str) (l : List Str) (hl : l ≠ [])
    (h : ∀ x ∈ l, ∃ t, x = c :: t) : ∃ t, Join l sep = c :: t := by
  cases l with
  | nil => exact absurd rfl hl
  | cons x xs =>
    obtain ⟨t, ht⟩ := h x (by simp)
    cases xs with
    | nil => exact ⟨t, by simp [Join, ht]⟩
    | cons y ys => exact ⟨t ++ sep ++ Join (y :: ys) sep, by simp [Join, ht]⟩

theorem join_concat_last (c : Char) (sep : Str) (l : List Str) (hl : l ≠ [])
    (h : ∀ x ∈ l, ∃ t, x = t ++ [c]) : ∃ t, Join l sep = t ++ [c] := by
  induction l with
  | nil => exact absurd rfl hl
  | cons x xs ih =>
    cases xs with
    | nil =>
      obtain ⟨t, ht⟩ := h x (by simp)
      exact ⟨t, by simp [Join, ht]⟩
    | cons y ys =>
      obtain ⟨t, ht⟩ := ih (by simp) (fun z hz => h z (by simp [hz]))
      exact ⟨x ++ sep ++ t, by rw [Join, ht]; simp⟩

/-- The `strings.TrimSpace` call of `Resource.Marshal` changes nothing: the
joined scopes are empty or start and end with an asterisk. -/
theorem trimSpace_join_scopes (scopes : List Str) :
    TrimSpace (Join (scopes.map (fun s => "**".toList ++ s ++ "**".toList)) ", ".toList)
      = Join (scopes.map (fun s => "**".toList ++ s ++ "**".toList)) ", ".toList := by
  cases hs : scopes with
  | nil => simp [Join, TrimSpace]
  | cons x xs =>
    have hne : (x :: xs).map (fun s => "**".toList ++ s ++ "**".toList) ≠ [] := by simp
    obtain ⟨t, ht⟩ := join_cons_head '*' ", ".toList _ hne (by
      intro y hy
      obtain ⟨z, _, rfl⟩ := List.mem_map.1 hy
      exact ⟨'*' :: (z ++ "**".toList), by simp⟩)
    obtain ⟨u, hu⟩ := join_concat_last '*' ", ".toList _ hne (by
      intro y hy
      obtain ⟨z, _, rfl⟩ := List.mem_map.1 hy
      exact ⟨"**".toList ++ z ++ ['*'], by simp⟩)
    exact trimSpace_of_ends _ t u '*' '*' (by decide) (by decide) ht hu

theorem endpoint_marshal_eq (e : Endpoint) : e.Marshal = [e.line] := by
  simp [Endpoint.Marshal, Endpoint.line]

/-- On a non-empty type label `Resource.Marshal` does not panic and returns
the four head lines followed by one line per endpoint. -/
theorem resource_marshal_of_ne_nil (r : Resource) (h : r.Typ ≠ []) :
    r.Marshal = some r.lines := by
  have hs := toSentenceCase_of_ne_nil r.Typ h
  have hsep : tableHeaders.foldl
      (fun headerSeparators t => headerSeparators ++ [Repeat "-".toList t.length]) []
      = [List.replicate 12 '-', List.replicate 34 '-', List.replicate 28 '-'] := by decide
  have hhead : Join tableHeaders " | ".toList
      = "API endpoint | Parameters into permissions engine | Available actions / examples".toList := by
    decide
  unfold Resource.Marshal
  rw [hs]
  simp only [Option.pure_def, Option.bind_eq_bind, Option.some_bind, hsep, hhead,
    foldl_append_singleton, foldl_append_list, List.nil_append, trimSpace_join_scopes]
  have hrows : (r.Endpoints.map Endpoint.Marshal).flatten = r.Endpoints.map Endpoint.line := by
    induction r.Endpoints with
    | nil => rfl
    | cons e es ih => simp [endpoint_marshal_eq, ih]
  simp [Resource.lines, Resource.headLines, Join, hrows]

theorem marshalTableOfContents_of_ne_nil (p : Page) (h : ∀ r ∈ p.Resources, r.Typ ≠ []) :
    p.MarshalTableOfContents
      = some (p.Resources.map (fun r => tocLine (sentenceCase r.Typ) r.Typ)) := by
  simpa [Page.MarshalTableOfContents] using marshalTableOfContents_loop p.Resources [] h

theorem marshalBody_of_ne_nil (p : Page) (h : ∀ r ∈ p.Resources, r.Typ ≠ []) :
    p.MarshalBody = some (p.Resources.map (fun r => r.lines ++ [[]])).flatten := by
  simpa [Page.MarshalBody] using
    marshalBody_loop p.Resources [] Resource.lines
      (fun r hr => resource_marshal_of_ne_nil r (h r hr))

/-- On a page whose type labels are all non-empty the splice does not panic. -/
theorem splice_of_ne_nil (p : Page) (D : Str) (h : ∀ r ∈ p.Resources, r.Typ ≠ []) :
    splice p D = some (spliceLines
      (p.Resources.map (fun r => tocLine (sentenceCase r.Typ) r.Typ))
      (p.Resources.map (fun r => r.lines ++ [[]])).flatten D) := by
  simp [splice, marshalTableOfContents_of_ne_nil p h, marshalBody_of_ne_nil p h]

theorem page_types_ne_nil : ∀ r ∈ page.Resources, r.Typ ≠ [] := by decide

theorem scan_fst (lines : List Str) : (scan lines).1 = (beginLoop lines 0 [] 0).1 := by
  simp [scan]

/-- When the first line containing the BEGIN marker is not line 0, the prefix
block is the lines up to and including that line. -/
theorem scan_fst_of_begin (before : List Str) (b : Str) (rest : List Str) (hne : before ≠ [])
    (hb : ∀ l ∈ before, Contains l "BEGIN TABLE".toList = false)
    (hm : Contains b "BEGIN TABLE".toList = true) :
    (scan (before ++ b :: rest)).1 = before ++ [b] := by
  have hlen : 0 + before.length ≠ 0 := by
    cases before with
    | nil => exact absurd rfl hne
    | cons x xs => simp
  rw [scan_fst, beginLoop_found before b rest 0 [] hb hm hlen]
  simp

/-! ## Splicing -/

/-- C1 (defect of the code): the prefix block should stop at the first line
containing `BEGIN TABLE`, but when that line is line 0 the scan takes the marker
index 0 for "not found" and runs on.  For the document
`BEGIN TABLE / old / END TABLE / B` the first marker line is line 0, a later line
contains `END TABLE`, and yet the prefix block is all four lines instead of the
single line `BEGIN TABLE`. -/
theorem prefix_overruns_begin_on_first_line :
    Split "BEGIN TABLE\nold\nEND TABLE\nB".toList "\n".toList
      = ["BEGIN TABLE".toList, "old".toList, "END TABLE".toList, "B".toList] ∧
    Contains "BEGIN TABLE".toList "BEGIN TABLE".toList = true ∧
    Contains "END TABLE".toList "END TABLE".toList = true ∧
    (scan (Split "BEGIN TABLE\nold\nEND TABLE\nB".toList "\n".toList)).1
      = ["BEGIN TABLE".toList, "old".toList, "END TABLE".toList, "B".toList] ∧
    (scan (Split "BEGIN TABLE\nold\nEND TABLE\nB".toList "\n".toList)).1
      ≠ ["BEGIN TABLE".toList] ∧
    spliceLines ["t".toList] ["b".toList] "BEGIN TABLE\nold\nEND TABLE\nB".toList
      = "BEGIN TABLE\nold\nEND TABLE\nB\n\nt\n\nb\n\nEND TABLE\nB".toList := by
  decide

/-- C2 (defect of the code): the suffix block should start at the first line
after the first `BEGIN TABLE` line that contains `END TABLE`.  For the document
`BEGIN TABLE / END TABLE / BEGIN TABLE / END TABLE` the first BEGIN line is
line 0 and the first END line after it is line 1, so the suffix should be lines
1 to 3; the code, which takes the marker index 0 for "not found", moves on to
the BEGIN line 2 and returns the suffix made of line 3 alone. -/
theorem suffix_skips_end_after_begin_on_first_line :
    Split "BEGIN TABLE\nEND TABLE\nBEGIN TABLE\nEND TABLE".toList "\n".toList
      = ["BEGIN TABLE".toList, "END TABLE".toList, "BEGIN TABLE".toList, "END TABLE".toList] ∧
    (scan (Split "BEGIN TABLE\nEND TABLE\nBEGIN TABLE\nEND TABLE".toList "\n".toList)).2
      = ["END TABLE".toList] ∧
    (scan (Split "BEGIN TABLE\nEND TABLE\nBEGIN TABLE\nEND TABLE".toList "\n".toList)).2
      ≠ ["END TABLE".toList, "BEGIN TABLE".toList, "END TABLE".toList] := by
  decide

/-- C3: splicing the host document `A / BEGIN TABLE / old / END TABLE / B` with
the one-resource catalog of type `X` gives prefix, blank line, table of contents
(the single line `- [X](#x)`), blank line, body, blank line, suffix, with prefix
`A / BEGIN TABLE` and suffix `END TABLE / B`; the output starts and ends as
stated and the old line `old` is gone. -/
theorem end_to_end_scenario :
    scenarioPage.MarshalTableOfContents = some ["- [X](#x)".toList] ∧
    scenarioPage.MarshalBody = some scenarioBody ∧
    (∃ out, splice scenarioPage "A\nBEGIN TABLE\nold\nEND TABLE\nB".toList = some out ∧
      out = "A\nBEGIN TABLE".toList ++ "\n\n".toList ++ Join ["- [X](#x)".toList] "\n".toList ++
        "\n\n".toList ++ Join scenarioBody "\n".toList ++ "\n\n".toList ++ "END TABLE\nB".toList ∧
      "A\nBEGIN TABLE\n\n- [X](#x)\n\n## X\n".toList <+: out ∧
      "\n\nEND TABLE\nB".toList <:+ out ∧
      Contains out "old".toList = false) := by
  refine ⟨?_, ?_, _, rfl, ?_, ?_, ?_, ?_⟩ <;> decide!

/-- C4: when no line of the host document contains `BEGIN TABLE`, the prefix
block is the whole document: the output is the document itself followed by a
blank line, the table of contents, a blank line, the body, a blank line and the
suffix block, and no error is raised (the splice of a page with non-empty type
labels, and of the fixed page in particular, returns a text). -/
theorem missing_begin_prefix_is_document (toc body : List Str) (D : Str)
    (h : ∀ l ∈ Split D "\n".toList, Contains l "BEGIN TABLE".toList = false) :
    (scan (Split D "\n".toList)).1 = Split D "\n".toList ∧
    spliceLines toc body D
      = D ++ "\n\n".toList ++ Join toc "\n".toList ++ "\n\n".toList ++ Join body "\n".toList ++
        "\n\n".toList ++ Join (scan (Split D "\n".toList)).2 "\n".toList ∧
    (∀ p : Page, (∀ r ∈ p.Resources, r.Typ ≠ []) → ∃ t b,
      p.MarshalTableOfContents = some t ∧ p.MarshalBody = some b ∧
      splice p D = some (spliceLines t b D)) ∧
    (main D).isSome = true := by
  have hpre : (scan (Split D "\n".toList)).1 = Split D "\n".toList := by
    rw [scan_fst, beginLoop_absent _ 0 [] h]
    simp
  refine ⟨hpre, ?_, ?_, ?_⟩
  · have : spliceLines toc body D
        = Join (scan (Split D "\n".toList)).1 "\n".toList ++ "\n\n".toList ++
          Join toc "\n".toList ++ "\n\n".toList ++ Join body "\n".toList ++ "\n\n".toList ++
          Join (scan (Split D "\n".toList)).2 "\n".toList := rfl
    rw [this, hpre, join_split_newline]
  · intro p hp
    exact ⟨_, _, marshalTableOfContents_of_ne_nil p hp, marshalBody_of_ne_nil p hp,
      splice_of_ne_nil p D hp⟩
  · simp [main, splice_of_ne_nil page D page_types_ne_nil]

theorem missing_begin_prefix_is_document_witness :
    (scan (Split "A\nB".toList "\n".toList)).1 = Split "A\nB".toList "\n".toList ∧
    spliceLines ["t".toList] ["b".toList] "A\nB".toList
      = "A\nB".toList ++ "\n\n".toList ++ Join ["t".toList] "\n".toList ++ "\n\n".toList ++
        Join ["b".toList] "\n".toList ++
        "\n\n".toList ++ Join (scan (Split "A\nB".toList "\n".toList)).2 "\n".toList ∧
    (∀ p : Page, (∀ r ∈ p.Resources, r.Typ ≠ []) → ∃ t b,
      p.MarshalTableOfContents = some t ∧ p.MarshalBody = some b ∧
      splice p "A\nB".toList = some (spliceLines t b "A\nB".toList)) ∧
    (main "A\nB".toList).isSome = true :=
  missing_begin_prefix_is_document ["t".toList] ["b".toList] "A\nB".toList (by decide)

/-! ## Escaping -/

/-- Replacing a one-character text replaces every occurrence of the character. -/
theorem replaceAll_singleton (s : Str) (a : Char) (new : Str) :
    ReplaceAll s [a] new = s.flatMap (fun c => if c = a then new else [c]) := by
  unfold ReplaceAll
  induction s with
  | nil => simp [replaceAux]
  | cons c cs ih =>
    rw [replaceAux]
    by_cases hc : c = a
    · subst hc
      simp [HasPrefix, ih]
    · simp [HasPrefix, hc, ih]

/-- The function `escape` replaces every `<` by `&lt;`, every `>` by `&gt;` and
keeps every other character. -/
theorem escape_eq_flatMap (s : Str) : escape s = s.flatMap escapeChar := by
  unfold escape
  simp only [show "<".toList = ['<'] from rfl, show ">".toList = ['>'] from rfl,
    replaceAll_singleton]
  induction s with
  | nil => rfl
  | cons c cs ih =>
    simp only [List.flatMap_cons, List.flatMap_append, ih]
    congr 1
    by_cases h1 : c = '<'
    · subst h1; decide
    · by_cases h2 : c = '>'
      · subst h2; decide
      · simp [escapeChar, h1, h2]

theorem escape_append (u v : Str) : escape (u ++ v) = escape u ++ escape v := by
  simp [escape_eq_flatMap]

theorem not_mem_escape (s : Str) : '<' ∉ escape s ∧ '>' ∉ escape s := by
  rw [escape_eq_flatMap]
  simp only [List.mem_flatMap, not_exists, not_and]
  constructor
  · intro c _
    unfold escapeChar
    split_ifs with h1 h2
    · decide
    · decide
    · simpa using fun h => h1 h.symm
  · intro c _
    unfold escapeChar
    split_ifs with h1 h2
    · decide
    · decide
    · simpa using fun h => h2 h.symm

/-- A text without `<` followed by `</code>` does not contain `<id>`. -/
theorem not_contains_id_tail (t : Str) (h : '<' ∉ t) :
    Contains (t ++ "</code>".toList) "<id>".toList = false := by
  induction t with
  | nil => decide
  | cons c cs ih =>
    have hc : c ≠ '<' := fun hc => h (by simp [hc])
    have hcs : '<' ∉ cs := fun hcs => h (by simp [hcs])
    rw [List.cons_append, Contains, ih hcs]
    simp [HasPrefix, hc]

theorem not_contains_id_cell (t : Str) (h : '<' ∉ t) :
    Contains ("<code>".toList ++ t ++ "</code>".toList) "<id>".toList = false := by
  have := not_contains_id_tail t h
  simp [Contains, HasPrefix] at this ⊢
  exact this

/-- C5: the first cell of an endpoint row is the escaped path between
`<code>` and `</code>`; `escape` replaces every `<` by `&lt;` and every `>` by
`&gt;`, so the escaped path holds neither character; a path containing `<id>`
gives a cell containing `&lt;id&gt;`, and no cell contains the raw `<id>`. -/
theorem escaped_path_cell (e : Endpoint) :
    e.row.head? = some ("<code>".toList ++ escape e.Path ++ "</code>".toList) ∧
    e.Marshal = ["| ".toList ++ ("<code>".toList ++ escape e.Path ++ "</code>".toList) ++
      " | ".toList ++ e.pString ++ " | ".toList ++ e.aString ++ " |".toList] ∧
    escape e.Path = e.Path.flatMap
      (fun c => if c = '<' then "&lt;".toList else if c = '>' then "&gt;".toList else [c]) ∧
    '<' ∉ escape e.Path ∧ '>' ∉ escape e.Path ∧
    (Contains e.Path "<id>".toList = true →
      Contains ("<code>".toList ++ escape e.Path ++ "</code>".toList) "&lt;id&gt;".toList = true) ∧
    Contains ("<code>".toList ++ escape e.Path ++ "</code>".toList) "<id>".toList = false ∧
    escape "/accounts/<id>".toList = "/accounts/&lt;id&gt;".toList := by
  refine ⟨by simp [Endpoint.row], by simp [Endpoint.Marshal, Endpoint.row, Join],
    escape_eq_flatMap e.Path, (not_mem_escape e.Path).1, (not_mem_escape e.Path).2, ?_,
    not_contains_id_cell _ (not_mem_escape e.Path).1, by decide⟩
  intro h
  rw [contains_iff] at h ⊢
  obtain ⟨u, v, huv⟩ := h
  refine ⟨"<code>".toList ++ escape u, escape v ++ "</code>".toList, ?_⟩
  rw [← huv, escape_append, escape_append,
    show escape "<id>".toList = "&lt;id&gt;".toList by decide]
  simp

/-! ## Parameters -/

theorem sortedKeys_eq (m : List (Str × Str)) :
    sortedKeys m = (m.map Prod.fst).insertionSort (· ≤ ·) := by
  simp [sortedKeys, sortStrings, foldl_append_singleton]

theorem sortedKeys_perm (m : List (Str × Str)) : (sortedKeys m).Perm (m.map Prod.fst) := by
  rw [sortedKeys_eq]
  exact List.perm_insertionSort _ _

theorem sortedKeys_sorted (m : List (Str × Str)) : (sortedKeys m).Sorted (· ≤ ·) := by
  rw [sortedKeys_eq]
  exact List.sorted_insertionSort _ _

/-- With unique keys the index expression returns the value listed with the key. -/
theorem mapIndex_of_mem (m : List (Str × Str)) (h : (m.map Prod.fst).Nodup) (k v : Str)
    (hkv : (k, v) ∈ m) : mapIndex m k = v := by
  induction m with
  | nil => simp at hkv
  | cons p ps ih =>
    obtain ⟨k1, v1⟩ := p
    simp only [List.map_cons, List.nodup_cons, List.mem_map, not_exists, not_and] at h
    rcases List.mem_cons.1 hkv with heq | hmem
    · cases heq
      simp [mapIndex, List.lookup]
    · have hne : k ≠ k1 := fun hk => h.1 (k, v) hmem (by simp [hk])
      have hb : (k == k1) = false := by simpa using hne
      have := ih h.2 hmem
      simp only [mapIndex, List.lookup, hb] at this ⊢
      exact this

/-- The parameters cell is the concatenation of one item per sorted key. -/
theorem pString_eq (e : Endpoint) :
    e.pString = "<ul>".toList ++ ((sortedKeys e.Params).map (fun k =>
      "<li>".toList ++ k ++ "</li><ul><li><code>".toList ++ escape (mapIndex e.Params k) ++
        "</code></li></ul>".toList)).flatten ++ "</ul>".toList := by
  unfold Endpoint.pString
  have hf : (fun (pString : Str) (v : Str) =>
        let pString := pString ++ "<li>".toList ++ v ++ "</li>".toList
        pString ++ "<ul><li><code>".toList ++ escape (mapIndex e.Params v) ++
          "</code></li></ul>".toList)
      = (fun acc v => acc ++ ("<li>".toList ++ v ++ "</li><ul><li><code>".toList ++
          escape (mapIndex e.Params v) ++ "</code></li></ul>".toList)) := by
    funext acc v
    simp
  simp only [hf, foldl_append_list]

/-- C6: for a parameter map with unique keys, `sortedKeys` returns a
permutation of the keys in strictly ascending lexicographic order, the index
expression returns the value of each key, and the second cell of the row is
`<ul>`, then for each key in that order the key as a list item followed by a
nested one-item list holding the escaped value in a code tag, then `</ul>`;
the map with `Type` and `ID` is rendered with `ID` first, whatever the order in
which the map lists them. -/
theorem params_cell_sorted (e : Endpoint) (h : (e.Params.map Prod.fst).Nodup) :
    (sortedKeys e.Params).Perm (e.Params.map Prod.fst) ∧
    (sortedKeys e.Params).Sorted (· < ·) ∧
    (∀ k v, (k, v) ∈ e.Params → mapIndex e.Params k = v) ∧
    e.row[1]? = some e.pString ∧
    e.pString = "<ul>".toList ++ ((sortedKeys e.Params).map (fun k =>
      "<li>".toList ++ k ++ "</li><ul><li><code>".toList ++ escape (mapIndex e.Params k) ++
        "</code></li></ul>".toList)).flatten ++ "</ul>".toList ∧
    Endpoint.pString
        { Path := [], Params := [("Type".toList, "a".toList), ("ID".toList, "b".toList)],
          Actions := [] }
      = "<ul><li>ID</li><ul><li><code>b</code></li></ul><li>Type</li><ul><li><code>a</code></li></ul></ul>".toList ∧
    Endpoint.pString
        { Path := [], Params := [("ID".toList, "b".toList), ("Type".toList, "a".toList)],
          Actions := [] }
      = "<ul><li>ID</li><ul><li><code>b</code></li></ul><li>Type</li><ul><li><code>a</code></li></ul></ul>".toList := by
  refine ⟨sortedKeys_perm _, ?_, mapIndex_of_mem _ h, by simp [Endpoint.row], pString_eq e,
    by decide!, by decide!⟩
  exact (sortedKeys_sorted _).lt_of_le ((sortedKeys_perm _).nodup_iff.2 h)

theorem params_cell_sorted_witness :
    (sortedKeys [("Type".toList, "a".toList), ("ID".toList, "b".toList)]).Perm
      ["Type".toList, "ID".toList] ∧
    sortedKeys [("Type".toList, "a".toList), ("ID".toList, "b".toList)]
      = ["ID".toList, "Type".toList] :=
  ⟨(params_cell_sorted
      { Path := [], Params := [("Type".toList, "a".toList), ("ID".toList, "b".toList)],
        Actions := [] } (by decide)).1, by decide⟩

/-! ## Table of contents -/

/-- The anchor is the lower-case label with every space turned into a hyphen. -/
theorem slug_eq_map (typ : Str) :
    slug typ = (ToLower typ).map (fun c => if c = ' ' then '-' else c) := by
  unfold slug
  rw [show " ".toList = [' '] from rfl, replaceAll_singleton]
  induction ToLower typ with
  | nil => rfl
  | cons c cs ih =>
    rw [List.flatMap_cons, ih]
    by_cases hc : c = ' ' <;> simp [hc]

/-! ### Labels that are not ASCII -/

theorem unicodeToUpper_ascii (table : Char → Char) (c : Char) (h : c.toNat < 128) :
    unicodeToUpper table c = Char.toUpper c := by
  simp [unicodeToUpper, h]

theorem unicodeToLower_ascii (table : Char → Char) (c : Char) (h : c.toNat < 128) :
    unicodeToLower table c = Char.toLower c := by
  simp [unicodeToLower, h]

theorem toLowerUTF8_ascii (lo : Char → Char) (s : Str) (h : IsASCII s) :
    ToLowerUTF8 lo s = ToLower s := by
  unfold ToLowerUTF8 ToLower
  exact List.map_congr_left (fun c hc => unicodeToLower_ascii lo c (h c hc))

theorem toSentenceCaseUTF8_of_ne_nil (up lo : Char → Char) (s : Str) (h : s ≠ []) :
    toSentenceCaseUTF8 up lo s
      = some (ToUpperUTF8 up (firstByte s) ++ ToLowerUTF8 lo (afterFirstByte s)) := by
  cases s with
  | nil => exact absurd rfl h
  | cons c cs => simp [toSentenceCaseUTF8]

/-- On an ASCII label the two forms of `toSentenceCase` agree. -/
theorem toSentenceCaseUTF8_ascii (up lo : Char → Char) (s : Str) (h : IsASCII s) :
    toSentenceCaseUTF8 up lo s = toSentenceCase s := by
  cases s with
  | nil => rfl
  | cons c cs =>
    have hc : c.toNat < 128 := h c (by simp)
    have hcs : IsASCII cs := fun d hd => h d (by simp [hd])
    have hl := toLowerUTF8_ascii lo cs hcs
    simp only [toSentenceCaseUTF8, toSentenceCase, firstByte, afterFirstByte, utf8Len, hc,
      ToUpperUTF8, ToUpper, ToLower] at hl ⊢
    simp [unicodeToUpper_ascii up c hc, hl]

/-- The two forms of `toSentenceCase` panic on the same labels, ASCII or not. -/
theorem toSentenceCaseUTF8_isSome (up lo : Char → Char) (s : Str) :
    (toSentenceCaseUTF8 up lo s).isSome = (toSentenceCase s).isSome := by
  cases s with
  | nil => rfl
  | cons c cs => simp [toSentenceCaseUTF8, toSentenceCase]

/-- On an ASCII label the two forms of the anchor agree. -/
theorem slugUTF8_ascii (lo : Char → Char) (s : Str) (h : IsASCII s) :
    slugUTF8 lo s = slug s := by
  unfold slugUTF8 slug
  rw [toLowerUTF8_ascii lo s h]

/-- The anchor is the lower-case label with every space turned into a hyphen. -/
theorem slugUTF8_eq_map (lo : Char → Char) (typ : Str) :
    slugUTF8 lo typ = (ToLowerUTF8 lo typ).map (fun c => if c = ' ' then '-' else c) := by
  unfold slugUTF8
  rw [show " ".toList = [' '] from rfl, replaceAll_singleton]
  induction ToLowerUTF8 lo typ with
  | nil => rfl
  | cons c cs ih =>
    rw [List.flatMap_cons, ih]
    by_cases hc : c = ' ' <;> simp [hc]

/-- A label whose first character takes two bytes: the slice `s[:1]` is the lone
first byte and the slice `s[1:]` starts with the lone second byte, so both
contribute the rune U+FFFD, as mapped by the case tables. -/
theorem toSentenceCaseUTF8_two_bytes (up lo : Char → Char) :
    toSentenceCaseUTF8 up lo [Char.ofNat 0xE9, 'a'] = some [up runeError, lo runeError, 'a'] := by
  rfl

/-- A label with a non-ASCII letter after the first character: when the case
table maps `É` to `é`, as that of Go does, the label `aÉ b` gives the line
`- [Aé b](#aé-b)`. -/
theorem marshalTableOfContentsUTF8_upper_e (up lo : Char → Char)
    (hlo : lo (Char.ofNat 0xC9) = Char.ofNat 0xE9) :
    Page.MarshalTableOfContentsUTF8 up lo
        { Resources := [{ Typ := ['a', Char.ofNat 0xC9, ' ', 'b'], Scopes := [],
                          Endpoints := [] }] }
      = some ["- [A".toList ++ [Char.ofNat 0xE9] ++ " b](#a".toList ++ [Char.ofNat 0xE9] ++
          "-b)".toList] := by
  have h1 : toSentenceCaseUTF8 up lo ['a', Char.ofNat 0xC9, ' ', 'b']
      = some ['A', lo (Char.ofNat 0xC9), ' ', 'b'] := rfl
  have h2 : ToLowerUTF8 lo ['a', Char.ofNat 0xC9, ' ', 'b']
      = ['a', lo (Char.ofNat 0xC9), ' ', 'b'] := rfl
  have h3 : slugUTF8 lo ['a', Char.ofNat 0xC9, ' ', 'b'] = ['a', Char.ofNat 0xE9, '-', 'b'] := by
    unfold slugUTF8
    rw [h2, hlo]
    decide
  simp only [Page.MarshalTableOfContentsUTF8, List.foldlM_cons, List.foldlM_nil, h1, h3, hlo,
    Option.pure_def, Option.bind_eq_bind, Option.some_bind]
  rfl

theorem marshalTableOfContentsUTF8_loop (up lo : Char → Char) (rs : List Resource)
    (init : List Str) (h : ∀ r ∈ rs, r.Typ ≠ []) :
    rs.foldlM
      (fun ret v => do
        let h ← toSentenceCaseUTF8 up lo v.Typ
        pure (ret ++ ["- [".toList ++ h ++ "](#".toList ++ slugUTF8 lo v.Typ ++ ")".toList]))
      init
    = some (init ++ rs.map (fun r =>
        "- [".toList ++ (ToUpperUTF8 up (firstByte r.Typ) ++ ToLowerUTF8 lo (afterFirstByte r.Typ))
          ++ "](#".toList ++ slugUTF8 lo r.Typ ++ ")".toList)) := by
  induction rs generalizing init with
  | nil => simp
  | cons r rs ih =>
    have hr := toSentenceCaseUTF8_of_ne_nil up lo r.Typ (h r (by simp))
    simp only [List.foldlM_cons, hr, Option.pure_def, Option.bind_eq_bind,
      Option.some_bind] at ih ⊢
    rw [ih _ (fun x hx => h x (by simp [hx]))]
    simp

theorem marshalTableOfContentsUTF8_of_ne_nil (up lo : Char → Char) (p : Page)
    (h : ∀ r ∈ p.Resources, r.Typ ≠ []) :
    p.MarshalTableOfContentsUTF8 up lo
      = some (p.Resources.map (fun r =>
        "- [".toList ++ (ToUpperUTF8 up (firstByte r.Typ) ++ ToLowerUTF8 lo (afterFirstByte r.Typ))
          ++ "](#".toList ++ slugUTF8 lo r.Typ ++ ")".toList)) := by
  simpa [Page.MarshalTableOfContentsUTF8] using
    marshalTableOfContentsUTF8_loop up lo p.Resources [] h

/-- On ASCII labels the two forms of `MarshalTableOfContents` agree. -/
theorem marshalTableOfContentsUTF8_ascii (up lo : Char → Char) (p : Page)
    (h : ∀ r ∈ p.Resources, IsASCII r.Typ) :
    p.MarshalTableOfContentsUTF8 up lo = p.MarshalTableOfContents := by
  have key : ∀ (rs : List Resource) (init : List Str), (∀ r ∈ rs, IsASCII r.Typ) →
      rs.foldlM
        (fun ret v => do
          let h ← toSentenceCaseUTF8 up lo v.Typ
          pure (ret ++ ["- [".toList ++ h ++ "](#".toList ++ slugUTF8 lo v.Typ ++ ")".toList]))
        init
      = rs.foldlM
        (fun ret v => do
          let h ← toSentenceCase v.Typ
          pure (ret ++ ["- [".toList ++ h ++ "](#".toList ++ slug v.Typ ++ ")".toList]))
        init := by
    intro rs
    induction rs with
    | nil => intro init _; rfl
    | cons r rs ih =>
      intro init hrs
      simp only [List.foldlM_cons, toSentenceCaseUTF8_ascii up lo r.Typ (hrs r (by simp)),
        slugUTF8_ascii lo r.Typ (hrs r (by simp))]
      cases toSentenceCase r.Typ with
      | none => rfl
      | some sc => exact ih _ (fun x hx => hrs x (by simp [hx]))
  exact key p.Resources [] h

/-- C7: on a catalog whose type labels are all non-empty, the table of contents
has exactly one line per resource, in catalog order, and the line of a resource
is `- [`, its sentence-case label, `](#`, its slug, `)`, where the slug is the
lower-case label with every space replaced by a hyphen.  This holds for
arbitrary UTF-8 labels, whatever the case tables of Go's `unicode` package map
the runes outside ASCII to; on ASCII labels the ASCII form of the rendering
returns the same lines, and `Host Catalog` gives
`- [Host catalog](#host-catalog)`. -/
theorem table_of_contents_lines (up lo : Char → Char) (p : Page)
    (h : ∀ r ∈ p.Resources, r.Typ ≠ []) :
    ∃ lines, p.MarshalTableOfContentsUTF8 up lo = some lines ∧
      lines.length = p.Resources.length ∧
      List.Forall₂
        (fun r line => ∃ sc, toSentenceCaseUTF8 up lo r.Typ = some sc ∧
          line = "- [".toList ++ sc ++ "](#".toList ++ slugUTF8 lo r.Typ ++ ")".toList ∧
          slugUTF8 lo r.Typ = (ToLowerUTF8 lo r.Typ).map (fun c => if c = ' ' then '-' else c))
        p.Resources lines ∧
      ((∀ r ∈ p.Resources, IsASCII r.Typ) →
        p.MarshalTableOfContents = some lines ∧
        ∀ r ∈ p.Resources, toSentenceCaseUTF8 up lo r.Typ = toSentenceCase r.Typ ∧
          slugUTF8 lo r.Typ = slug r.Typ) ∧
      Page.MarshalTableOfContentsUTF8 up lo
          { Resources := [{ Typ := "Host Catalog".toList, Scopes := [], Endpoints := [] }] }
        = some ["- [Host catalog](#host-catalog)".toList] := by
  have hm := marshalTableOfContentsUTF8_of_ne_nil up lo p h
  refine ⟨_, hm, by simp, ?_, ?_, ?_⟩
  · rw [List.forall₂_map_right_iff, List.forall₂_same]
    intro r hr
    exact ⟨_, toSentenceCaseUTF8_of_ne_nil up lo r.Typ (h r hr), rfl, slugUTF8_eq_map lo r.Typ⟩
  · intro ha
    refine ⟨?_, fun r hr => ⟨toSentenceCaseUTF8_ascii up lo r.Typ (ha r hr),
      slugUTF8_ascii lo r.Typ (ha r hr)⟩⟩
    rw [← marshalTableOfContentsUTF8_ascii up lo p ha, hm]
  · rw [marshalTableOfContentsUTF8_ascii up lo _ (by decide)]
    decide

theorem table_of_contents_lines_witness :
    ∃ lines, page.MarshalTableOfContentsUTF8 (fun c => c) (fun c => c) = some lines ∧
      lines.length = 16 ∧ page.MarshalTableOfContents = some lines := by
  obtain ⟨lines, hm, hlen, _, ha, _⟩ :=
    table_of_contents_lines (fun c => c) (fun c => c) page (by decide)
  exact ⟨lines, hm, hlen, (ha (by decide)).1⟩

/-- C8: the sixteen resources of the fixed catalog carry the type labels listed
below, these labels are pairwise different, and so are their slugs: two
resources of the catalog with different labels have different anchors. -/
theorem slug_injective_on_catalog :
    page.Resources.map (fun r => r.Typ)
      = ["Account".toList, "Auth Method".toList, "Auth Token".toList, "Group".toList,
         "Host".toList, "Host Catalog".toList, "Host Set".toList, "Managed Group".toList,
         "Role".toList, "Scope".toList, "Session".toList, "Session Recording".toList,
         "Storage Bucket".toList, "Target".toList, "User".toList, "Worker".toList] ∧
    (page.Resources.map (fun r => r.Typ)).Nodup ∧
    (page.Resources.map (fun r => slug r.Typ)).Nodup ∧
    (∀ r1 ∈ page.Resources, ∀ r2 ∈ page.Resources,
      r1.Typ ≠ r2.Typ → slug r1.Typ ≠ slug r2.Typ) ∧
    (∀ r1 ∈ page.Resources, ∀ r2 ∈ page.Resources,
      slug r1.Typ = slug r2.Typ → r1 = r2) := by
  refine ⟨by decide!, by decide!, by decide!, ?_, ?_⟩
  · decide!
  · decide!

/-! ## Sentence case -/

/-- The ASCII case mappings, by character code. -/
theorem ascii_case_codes : ∀ n, n < 128 →
    (Char.toUpper (Char.ofNat n)).toNat = (if 97 ≤ n ∧ n ≤ 122 then n - 32 else n) ∧
    (Char.toLower (Char.ofNat n)).toNat = (if 65 ≤ n ∧ n ≤ 90 then n + 32 else n) := by
  decide!

/-- C9: on a non-empty ASCII string `toSentenceCase` does not panic; its result
has the length of the input, its first character is the upper-case form of the
first character of the input and each later character is the lower-case form of
the character at the same position (upper case moves the codes 97 to 122 down
by 32, lower case moves the codes 65 to 90 up by 32, every other character is
kept); `Host Catalog` gives `Host catalog`. -/
theorem sentence_case_shape (s : Str) (hne : s ≠ []) (hascii : ∀ c ∈ s, c.toNat < 128) :
    ∃ r, toSentenceCase s = some r ∧
      r.length = s.length ∧
      r[0]? = s[0]?.map Char.toUpper ∧
      (∀ i, 1 ≤ i → r[i]? = s[i]?.map Char.toLower) ∧
      (∀ c ∈ s,
        (Char.toUpper c).toNat = (if 97 ≤ c.toNat ∧ c.toNat ≤ 122 then c.toNat - 32 else c.toNat) ∧
        (Char.toLower c).toNat = (if 65 ≤ c.toNat ∧ c.toNat ≤ 90 then c.toNat + 32 else c.toNat)) ∧
      toSentenceCase "Host Catalog".toList = some "Host catalog".toList := by
  cases s with
  | nil => exact absurd rfl hne
  | cons c cs =>
    refine ⟨Char.toUpper c :: cs.map Char.toLower, by simp [toSentenceCase, ToUpper, ToLower],
      by simp, by simp, ?_, ?_, by decide⟩
    · intro i hi
      obtain ⟨j, rfl⟩ : ∃ j, i = j + 1 := ⟨i - 1, by omega⟩
      simp
    · intro d hd
      have := ascii_case_codes d.toNat (hascii d hd)
      rw [Char.ofNat_toNat] at this
      exact this

theorem sentence_case_shape_witness :
    ∃ r, toSentenceCase "hOST".toList = some r ∧
      r.length = "hOST".toList.length ∧
      r[0]? = "hOST".toList[0]?.map Char.toUpper ∧
      (∀ i, 1 ≤ i → r[i]? = "hOST".toList[i]?.map Char.toLower) ∧
      (∀ c ∈ "hOST".toList,
        (Char.toUpper c).toNat = (if 97 ≤ c.toNat ∧ c.toNat ≤ 122 then c.toNat - 32 else c.toNat) ∧
        (Char.toLower c).toNat = (if 65 ≤ c.toNat ∧ c.toNat ≤ 90 then c.toNat + 32 else c.toNat)) ∧
      toSentenceCase "Host Catalog".toList = some "Host catalog".toList :=
  sentence_case_shape "hOST".toList (by decide) (by decide)

/-! ## Resource body -/

theorem resource_marshalUTF8_of_ne_nil (up lo : Char → Char) (r : Resource)
    (h : r.Typ ≠ []) :
    r.MarshalUTF8 up lo
      = some (r.headLinesOf
          (ToUpperUTF8 up (firstByte r.Typ) ++ ToLowerUTF8 lo (afterFirstByte r.Typ)) ++
        r.Endpoints.map Endpoint.line) := by
  have hs := toSentenceCaseUTF8_of_ne_nil up lo r.Typ h
  have hsep : tableHeaders.foldl
      (fun headerSeparators t => headerSeparators ++ [Repeat "-".toList t.length]) []
      = [List.replicate 12 '-', List.replicate 34 '-', List.replicate 28 '-'] := by decide
  have hhead : Join tableHeaders " | ".toList
      = "API endpoint | Parameters into permissions engine | Available actions / examples".toList := by
    decide
  unfold Resource.MarshalUTF8
  rw [hs]
  simp only [Option.pure_def, Option.bind_eq_bind, Option.some_bind, hsep, hhead,
    foldl_append_singleton, foldl_append_list, List.nil_append, trimSpace_join_scopes]
  have hrows : (r.Endpoints.map Endpoint.Marshal).flatten = r.Endpoints.map Endpoint.line := by
    induction r.Endpoints with
    | nil => rfl
    | cons e es ih => simp [endpoint_marshal_eq, ih]
  simp [Resource.headLinesOf, Join, hrows]

/-- On an ASCII label the two forms of `Resource.Marshal` agree. -/
theorem resource_marshalUTF8_ascii (up lo : Char → Char) (r : Resource) (h : IsASCII r.Typ) :
    r.MarshalUTF8 up lo = r.Marshal := by
  unfold Resource.MarshalUTF8 Resource.Marshal
  rw [toSentenceCaseUTF8_ascii up lo r.Typ h]

/-- C10: for a resource with a non-empty type label and `n` endpoints,
`Resource.Marshal` returns exactly `4 + n` lines: the level-2 heading with the
sentence-case label and a newline; the scopes sentence, the scopes each between
`**` and joined by a comma and a space, and a newline; the header row; the
separator row, whose three runs of `-` have the lengths 12, 34 and 28 of the
three headers; and then the row of each endpoint, in declared order.  This
holds for arbitrary UTF-8 labels, whatever the case tables of Go's `unicode`
package map the runes outside ASCII to; on an ASCII label the ASCII form of the
rendering returns the same lines. -/
theorem resource_body_layout (up lo : Char → Char) (r : Resource) (h : r.Typ ≠ []) :
    ∃ sc rows, toSentenceCaseUTF8 up lo r.Typ = some sc ∧
      List.Forall₂ (fun e row => e.Marshal = [row]) r.Endpoints rows ∧
      r.MarshalUTF8 up lo = some (
        ["## ".toList ++ sc ++ "\n".toList,
         "The **".toList ++ sc ++ "** resource type supports the following scopes: ".toList ++
           Join (r.Scopes.map (fun s => "**".toList ++ s ++ "**".toList)) ", ".toList ++
           "\n".toList,
         "| API endpoint | Parameters into permissions engine | Available actions / examples |".toList,
         "| ".toList ++ List.replicate 12 '-' ++ " | ".toList ++ List.replicate 34 '-' ++
           " | ".toList ++ List.replicate 28 '-' ++ " |".toList] ++ rows) ∧
      (∀ ls, r.MarshalUTF8 up lo = some ls → ls.length = 4 + r.Endpoints.length) ∧
      tableHeaders.map List.length = [12, 34, 28] ∧
      (IsASCII r.Typ → toSentenceCase r.Typ = some sc ∧ r.Marshal = r.MarshalUTF8 up lo) := by
  have hm := resource_marshalUTF8_of_ne_nil up lo r h
  have hs := toSentenceCaseUTF8_of_ne_nil up lo r.Typ h
  refine ⟨_, r.Endpoints.map Endpoint.line, hs, ?_, hm, ?_, by decide, ?_⟩
  · rw [List.forall₂_map_right_iff, List.forall₂_same]
    intro e _
    exact endpoint_marshal_eq e
  · intro ls hls
    rw [hm] at hls
    cases hls
    simp [Resource.headLinesOf]
    omega
  · intro ha
    exact ⟨by rw [← toSentenceCaseUTF8_ascii up lo r.Typ ha, hs],
      (resource_marshalUTF8_ascii up lo r ha).symm⟩

theorem resource_body_layout_witness :
    ∃ ls, worker.MarshalUTF8 (fun c => c) (fun c => c) = some ls ∧ ls.length = 6 ∧
      worker.Marshal = some ls := by
  obtain ⟨sc, rows, _, _, hm, hlen, _, ha⟩ :=
    resource_body_layout (fun c => c) (fun c => c) worker (by decide)
  exact ⟨_, hm, hlen _ hm, by rw [(ha (by decide)).2, hm]⟩

/-! ## Actions -/

/-- The examples list of an action is the concatenation of one item per example. -/
theorem eString_eq (v : Action) :
    v.eString = "<ul>".toList ++
      (v.Examples.map (fun x => "<li>`".toList ++ x ++ "`</li>".toList)).flatten ++
      "</ul>".toList := by
  unfold Action.eString
  have hf : (fun (eString : Str) (x : Str) => eString ++ "<li>`".toList ++ x ++ "`</li>".toList)
      = (fun acc x => acc ++ ("<li>`".toList ++ x ++ "`</li>".toList)) := by
    funext acc x
    simp
  simp only [hf, foldl_append_list]

/-- The actions cell is the concatenation of one item per action. -/
theorem aString_eq (e : Endpoint) :
    e.aString = "<ul>".toList ++ (e.Actions.map (fun a =>
      "<li><code>".toList ++ escape a.Name ++ "</code>: ".toList ++ a.Description ++
        "</li>".toList ++ a.eString)).flatten ++ "</ul>".toList := by
  unfold Endpoint.aString
  have hf : (fun (aString : Str) (v : Action) =>
        let aString := aString ++ "<li><code>".toList ++ escape v.Name ++
          "</code>: ".toList ++ v.Description ++ "</li>".toList
        aString ++ v.eString)
      = (fun acc v => acc ++ ("<li><code>".toList ++ escape v.Name ++ "</code>: ".toList ++
          v.Description ++ "</li>".toList ++ v.eString)) := by
    funext acc v
    simp
  simp only [hf, foldl_append_list]

/-- C11: `Endpoint.Marshal` returns exactly one line, the three cells between
`| ` and ` |` and separated by ` | `; the third cell is `<ul>`, then for each
action in declared order the item with the escaped name in a code tag, a colon
and the description as it is, followed by the nested list of its examples as
they are, each between backticks, then `</ul>`. -/
theorem actions_cell (e : Endpoint) :
    e.Marshal = ["| ".toList ++ ("<code>".toList ++ escape e.Path ++ "</code>".toList) ++
      " | ".toList ++ e.pString ++ " | ".toList ++ e.aString ++ " |".toList] ∧
    e.row[2]? = some e.aString ∧
    e.row.length = 3 ∧
    e.aString = "<ul>".toList ++ (e.Actions.map (fun a =>
      "<li><code>".toList ++ escape a.Name ++ "</code>: ".toList ++ a.Description ++
        "</li>".toList ++ ("<ul>".toList ++
          (a.Examples.map (fun x => "<li>`".toList ++ x ++ "`</li>".toList)).flatten ++
          "</ul>".toList))).flatten ++ "</ul>".toList ∧
    Endpoint.aString
        { Path := [], Params := [],
          Actions := [{ Name := "list".toList, Description := "List xs".toList,
                        Examples := ["type=<type>;actions=list".toList] }] }
      = "<ul><li><code>list</code>: List xs</li><ul><li>`type=<type>;actions=list`</li></ul></ul>".toList := by
  refine ⟨by simp [Endpoint.Marshal, Endpoint.row, Join], by simp [Endpoint.row],
    by simp [Endpoint.row], ?_, by decide!⟩
  rw [aString_eq]
  simp only [eString_eq]

/-! ## Action constructors -/

/-- C14: `rudActions` returns the three actions `read`, `update`, `delete` in
that order, described by `Read `, `Update `, `Delete ` followed by the label;
without pin each has the single example `ids=<id>;actions=` and the verb, with
pin each has that example followed by `ids=<pin>;type=<type>;actions=` and the
verb. -/
theorem rudActions_shape (l : Str) :
    rudActions l false =
      [{ Name := "read".toList, Description := "Read ".toList ++ l,
         Examples := ["ids=<id>;actions=read".toList] },
       { Name := "update".toList, Description := "Update ".toList ++ l,
         Examples := ["ids=<id>;actions=update".toList] },
       { Name := "delete".toList, Description := "Delete ".toList ++ l,
         Examples := ["ids=<id>;actions=delete".toList] }] ∧
    rudActions l true =
      [{ Name := "read".toList, Description := "Read ".toList ++ l,
         Examples := ["ids=<id>;actions=read".toList,
                      "ids=<pin>;type=<type>;actions=read".toList] },
       { Name := "update".toList, Description := "Update ".toList ++ l,
         Examples := ["ids=<id>;actions=update".toList,
                      "ids=<pin>;type=<type>;actions=update".toList] },
       { Name := "delete".toList, Description := "Delete ".toList ++ l,
         Examples := ["ids=<id>;actions=delete".toList,
                      "ids=<pin>;type=<type>;actions=delete".toList] }] ∧
    (∀ pin, ∀ a ∈ rudActions l pin, ∀ verb, a.Name = verb →
      a.Examples = if pin then
          ["ids=<id>;actions=".toList ++ verb, "ids=<pin>;type=<type>;actions=".toList ++ verb]
        else ["ids=<id>;actions=".toList ++ verb]) := by
  refine ⟨rfl, rfl, ?_⟩
  intro pin a ha verb hv
  subst hv
  cases pin <;>
    simp [rudActions, appendExample, List.modify] at ha <;>
    rcases ha with rfl | rfl | rfl <;> rfl

/-- C15: `clActions` returns two actions: the action `create`, described by
`Create ` followed by the label with its article and with the single example
`type=<type>;actions=create`, and then the actions of `lActions`. -/
theorem clActions_shape (l : Str) :
    clActions l =
      { Name := "create".toList, Description := "Create ".toList ++ l,
        Examples := ["type=<type>;actions=create".toList] } :: lActions l ∧
    (clActions l).length = 2 ∧
    (clActions l).tail = lActions l := by
  refine ⟨rfl, rfl, rfl⟩

/-- The label `an a b` starts with `an `, so the specification's removal of one
article leaves `a b` and the description would be `List a bs`; `lActions` trims
`an ` and then `a ` and describes the action as `List bs`. -/
theorem lActions_strips_both_articles :
    stripOneArticle "an a b".toList = "a b".toList ∧
    lActions "an a b".toList =
      [{ Name := "list".toList, Description := "List bs".toList,
         Examples := ["type=<type>;actions=list".toList] }] ∧
    lActions "an a b".toList ≠
      [{ Name := "list".toList,
         Description := "List ".toList ++ stripOneArticle "an a b".toList ++ "s".toList,
         Examples := ["type=<type>;actions=list".toList] }] := by
  decide

/-- C13 (amended): `lActions` returns exactly one action, named `list`, with
the single example `type=<type>;actions=list` and described by `List `, the
stripped label and `s`, where the label is stripped by removing the prefix
`an ` if it is there and then removing the prefix `a ` from the result if it is
there; on every label that does not start with `an a ` this is the removal of
one leading article; `an account` gives `List accounts` and `a host` gives
`List hosts`. -/
theorem lActions_shape (l : Str) :
    lActions l =
      [{ Name := "list".toList,
         Description := "List ".toList ++
           (if HasPrefix l "an ".toList then
              (if HasPrefix (l.drop 3) "a ".toList then l.drop 5 else l.drop 3)
            else if HasPrefix l "a ".toList then l.drop 2 else l) ++ "s".toList,
         Examples := ["type=<type>;actions=list".toList] }] ∧
    (HasPrefix l "an a ".toList = false →
      lActions l =
        [{ Name := "list".toList,
           Description := "List ".toList ++ stripOneArticle l ++ "s".toList,
           Examples := ["type=<type>;actions=list".toList] }]) ∧
    (lActions "an account".toList).map (fun a => a.Description) = ["List accounts".toList] ∧
    (lActions "a host".toList).map (fun a => a.Description) = ["List hosts".toList] := by
  have key : TrimPrefix (TrimPrefix l "an ".toList) "a ".toList
      = (if HasPrefix l "an ".toList then
          (if HasPrefix (l.drop 3) "a ".toList then l.drop 5 else l.drop 3)
        else if HasPrefix l "a ".toList then l.drop 2 else l) := by
    unfold TrimPrefix
    by_cases h1 : HasPrefix l "an ".toList = true
    · simp only [h1, if_true]
      by_cases h2 : HasPrefix (l.drop 3) "a ".toList = true
      · simp [h2, List.drop_drop]
      · simp [h2]
    · simp only [h1, if_false]
      by_cases h2 : HasPrefix l "a ".toList = true
      · simp [h2]
      · simp [h2]
  have hdrop : HasPrefix l "an ".toList = true →
      HasPrefix (l.drop 3) "a ".toList = HasPrefix l "an a ".toList := by
    intro h
    rcases l with _ | ⟨c1, _ | ⟨c2, _ | ⟨c3, t⟩⟩⟩ <;> simp [HasPrefix] at h ⊢
    obtain ⟨rfl, rfl, rfl⟩ := h
    simp
  refine ⟨?_, ?_, by decide, by decide⟩
  · simp only [lActions, key]
  · intro h
    simp only [lActions, key, stripOneArticle]
    by_cases h1 : HasPrefix l "an ".toList = true
    · rw [hdrop h1, h]
      simp [h1]
    · rw [if_neg h1, if_neg h1]

/-! ## Catalog invariants -/

/-- C16: in the fixed catalog of sixteen resources every resource has at least
one scope and at least one endpoint, every endpoint has at least one action,
and every endpoint whose path does not contain `<id>` has an action named
`list`. -/
theorem catalog_invariants :
    page.Resources.length = 16 ∧
    ∀ r ∈ page.Resources, r.Scopes ≠ [] ∧ r.Endpoints ≠ [] ∧
      ∀ e ∈ r.Endpoints, e.Actions ≠ [] ∧
        (Contains e.Path "<id>".toList = false → ∃ a ∈ e.Actions, a.Name = "list".toList) := by
  decide!

/-! ## Splicing without a usable marker -/

/-- When `marker` is still zero after the first loop, the suffix block is
decided by the lines from index 1 on. -/
theorem scan_snd_of_marker_zero (l0 : Str) (rest : List Str)
    (h : (beginLoop (l0 :: rest) 0 [] 0).2 = 0) :
    (scan (l0 :: rest)).2 = (l0 :: rest).drop (endLoop rest 1 0) := by
  have hp : beginLoop (l0 :: rest) 0 [] 0
      = ((beginLoop (l0 :: rest) 0 [] 0).1, 0) :=
    Prod.ext rfl h
  unfold scan
  rw [hp]
  simp [postLoop_eq]

/-- The document `END TABLE / x / END TABLE` has no line containing `BEGIN TABLE`
and its line 0 contains `END TABLE`; a search from line 0 would make the suffix
block the whole document, but the suffix block is line 2 alone. -/
theorem suffix_search_skips_line_zero :
    Split "END TABLE\nx\nEND TABLE".toList "\n".toList
      = ["END TABLE".toList, "x".toList, "END TABLE".toList] ∧
    (∀ l ∈ Split "END TABLE\nx\nEND TABLE".toList "\n".toList,
      Contains l "BEGIN TABLE".toList = false) ∧
    Contains "END TABLE".toList "END TABLE".toList = true ∧
    (scan (Split "END TABLE\nx\nEND TABLE".toList "\n".toList)).2 = ["END TABLE".toList] ∧
    (scan (Split "END TABLE\nx\nEND TABLE".toList "\n".toList)).2
      ≠ ["END TABLE".toList, "x".toList, "END TABLE".toList] := by
  decide

/-- C17 (amended): when no line of the host document contains `BEGIN TABLE`,
the search for the END marker starts from line 1: if some line after line 0
contains `END TABLE`, the suffix block is the lines from the first such line to
the end; otherwise the suffix block is the whole document. -/
theorem suffix_without_begin (l0 : Str) (rest : List Str)
    (h : ∀ l ∈ l0 :: rest, Contains l "BEGIN TABLE".toList = false) :
    (∀ old e after, rest = old ++ e :: after →
      (∀ l ∈ old, Contains l "END TABLE".toList = false) →
      Contains e "END TABLE".toList = true →
      (scan (l0 :: rest)).2 = e :: after) ∧
    ((∀ l ∈ rest, Contains l "END TABLE".toList = false) →
      (scan (l0 :: rest)).2 = l0 :: rest) := by
  have hz : (beginLoop (l0 :: rest) 0 [] 0).2 = 0 := by
    rw [beginLoop_absent _ 0 [] h]
  constructor
  · intro old e after hrest ho he
    rw [scan_snd_of_marker_zero l0 rest hz, hrest, endLoop_found old e after 1 0 ho he]
    rw [show l0 :: (old ++ e :: after) = (l0 :: old) ++ (e :: after) by simp]
    exact List.drop_left' (by simp; omega)
  · intro hr
    rw [scan_snd_of_marker_zero l0 rest hz, endLoop_absent rest 1 0 hr]
    rfl

theorem suffix_without_begin_witness :
    (scan ["END TABLE".toList, "x".toList, "END TABLE".toList, "y".toList]).2
      = ["END TABLE".toList, "y".toList] :=
  (suffix_without_begin "END TABLE".toList ["x".toList, "END TABLE".toList, "y".toList]
    (by decide)).1 ["x".toList] "END TABLE".toList ["y".toList] rfl (by decide) (by decide)

/-- C19: when line 0 of the host document contains `BEGIN TABLE` and no later
line does, the first loop never breaks: it ends with `marker` equal to 0 and the
prefix block is the entire document, the old table and any `END TABLE` line
included. -/
theorem begin_on_first_line_not_found (l0 : Str) (rest : List Str)
    (h0 : Contains l0 "BEGIN TABLE".toList = true)
    (hr : ∀ l ∈ rest, Contains l "BEGIN TABLE".toList = false) :
    beginLoop (l0 :: rest) 0 [] 0 = (l0 :: rest, 0) ∧
    (scan (l0 :: rest)).1 = l0 :: rest := by
  have hb : beginLoop (l0 :: rest) 0 [] 0 = (l0 :: rest, 0) := by
    rw [beginLoop]
    simp only [h0]
    simp [beginLoop_absent rest 1 [l0] hr]
  exact ⟨hb, by rw [scan_fst, hb]⟩

theorem begin_on_first_line_not_found_witness :
    (scan ["BEGIN TABLE".toList, "old".toList, "END TABLE".toList, "B".toList]).1
      = ["BEGIN TABLE".toList, "old".toList, "END TABLE".toList, "B".toList] :=
  (begin_on_first_line_not_found "BEGIN TABLE".toList
    ["old".toList, "END TABLE".toList, "B".toList] (by decide) (by decide)).2

/-- C20: when the first line containing `BEGIN TABLE` is not line 0 and no line
after it contains `END TABLE`, nothing fails: the prefix block ends with the
BEGIN line and the suffix block starts with the same BEGIN line and runs to the
end of the document, so the BEGIN line and the old content after it follow the
new table in the output. -/
theorem missing_end_suffix_from_begin (toc body : List Str) (D : Str)
    (before : List Str) (b : Str) (rest : List Str)
    (hD : Split D "\n".toList = before ++ b :: rest) (hne : before ≠ [])
    (hb : ∀ l ∈ before, Contains l "BEGIN TABLE".toList = false)
    (hm : Contains b "BEGIN TABLE".toList = true)
    (hr : ∀ l ∈ rest, Contains l "END TABLE".toList = false) :
    scan (Split D "\n".toList) = (before ++ [b], b :: rest) ∧
    (scan (Split D "\n".toList)).2 = (Split D "\n".toList).drop before.length ∧
    b ∈ (scan (Split D "\n".toList)).1 ∧ b ∈ (scan (Split D "\n".toList)).2 ∧
    spliceLines toc body D
      = Join (before ++ [b]) "\n".toList ++ "\n\n".toList ++ Join toc "\n".toList ++
        "\n\n".toList ++ Join body "\n".toList ++ "\n\n".toList ++
        Join (b :: rest) "\n".toList ∧
    (∀ p : Page, (∀ r ∈ p.Resources, r.Typ ≠ []) → (splice p D).isSome = true) := by
  have hlen : 0 + before.length ≠ 0 := by
    cases before with
    | nil => exact absurd rfl hne
    | cons x xs => simp
  have h1 := beginLoop_found before b rest 0 [] hb hm hlen
  rw [Nat.zero_add] at h1
  have hd : List.drop (before.length + 1) (before ++ b :: rest) = rest := by
    rw [show before ++ b :: rest = (before ++ [b]) ++ rest by simp]
    exact List.drop_left' (by simp)
  have hd2 : List.drop before.length (before ++ b :: rest) = b :: rest :=
    List.drop_left' rfl
  have hs : scan (before ++ b :: rest) = (before ++ [b], b :: rest) := by
    simp only [scan, h1, hd, endLoop_absent rest (before.length + 1) before.length hr, hd2,
      postLoop_eq]
    simp
  have hsp : spliceLines toc body D
      = Join (scan (Split D "\n".toList)).1 "\n".toList ++ "\n\n".toList ++
        Join toc "\n".toList ++ "\n\n".toList ++ Join body "\n".toList ++ "\n\n".toList ++
        Join (scan (Split D "\n".toList)).2 "\n".toList := rfl
  rw [hsp, hD, hs]
  refine ⟨rfl, hd2.symm, by simp, by simp, rfl, ?_⟩
  intro p hp
  simp [splice_of_ne_nil p D hp]

theorem missing_end_suffix_from_begin_witness :
    scan (Split "A\nBEGIN TABLE\nold".toList "\n".toList)
      = (["A".toList] ++ ["BEGIN TABLE".toList], "BEGIN TABLE".toList :: ["old".toList]) :=
  (missing_end_suffix_from_begin [] [] "A\nBEGIN TABLE\nold".toList ["A".toList]
    "BEGIN TABLE".toList ["old".toList] (by decide) (by decide) (by decide) (by decide)
    (by decide)).1

/-! ## Independence of the listing order of the parameter maps -/

theorem mapIndex_of_not_mem (m : List (Str × Str)) (k : Str) (h : k ∉ m.map Prod.fst) :
    mapIndex m k = [] := by
  induction m with
  | nil => rfl
  | cons p ps ih =>
    obtain ⟨k1, v1⟩ := p
    simp only [List.map_cons, List.mem_cons, not_or] at h
    have hb : (k == k1) = false := by simpa using h.1
    have := ih h.2
    simp only [mapIndex, List.lookup, hb] at this ⊢
    exact this

/-- Listing the associations of a map in another order does not change the
value found under a key. -/
theorem mapIndex_perm (m1 m2 : List (Str × Str)) (hp : m1.Perm m2)
    (hn : (m1.map Prod.fst).Nodup) (k : Str) : mapIndex m1 k = mapIndex m2 k := by
  have hn2 : (m2.map Prod.fst).Nodup := (hp.map Prod.fst).nodup_iff.1 hn
  by_cases hk : k ∈ m1.map Prod.fst
  · obtain ⟨⟨k1, v⟩, hmem, hk1⟩ := List.mem_map.1 hk
    simp only at hk1
    subst hk1
    rw [mapIndex_of_mem m1 hn k1 v hmem, mapIndex_of_mem m2 hn2 k1 v (hp.subset hmem)]
  · have hk2 : k ∉ m2.map Prod.fst := fun h => hk ((hp.map Prod.fst).symm.subset h)
    rw [mapIndex_of_not_mem m1 k hk, mapIndex_of_not_mem m2 k hk2]

/-- Listing the associations of a map in another order does not change the
sorted keys. -/
theorem sortedKeys_perm_eq (m1 m2 : List (Str × Str)) (hp : m1.Perm m2) :
    sortedKeys m1 = sortedKeys m2 :=
  List.eq_of_perm_of_sorted
    (((sortedKeys_perm m1).trans (hp.map Prod.fst)).trans (sortedKeys_perm m2).symm)
    (sortedKeys_sorted m1) (sortedKeys_sorted m2)

theorem endpoint_marshal_congr (e1 e2 : Endpoint) (h : e1.SameUpToMapOrder e2) :
    e1.Marshal = e2.Marshal := by
  obtain ⟨hpath, hact, hperm, hnd⟩ := h
  have hps : e1.pString = e2.pString := by
    rw [pString_eq, pString_eq, sortedKeys_perm_eq _ _ hperm]
    have : (fun k => "<li>".toList ++ k ++ "</li><ul><li><code>".toList ++
          escape (mapIndex e1.Params k) ++ "</code></li></ul>".toList)
        = (fun k => "<li>".toList ++ k ++ "</li><ul><li><code>".toList ++
          escape (mapIndex e2.Params k) ++ "</code></li></ul>".toList) := by
      funext k
      rw [mapIndex_perm _ _ hperm hnd k]
    rw [this]
  have has : e1.aString = e2.aString := by
    unfold Endpoint.aString
    rw [hact]
  unfold Endpoint.Marshal Endpoint.row
  rw [hpath, hps, has]

theorem endpoints_marshal_congr (es1 es2 : List Endpoint)
    (h : List.Forall₂ Endpoint.SameUpToMapOrder es1 es2) :
    es1.map Endpoint.Marshal = es2.map Endpoint.Marshal := by
  induction h with
  | nil => rfl
  | cons he _ ih => simp [endpoint_marshal_congr _ _ he, ih]

theorem resource_marshal_congr (r1 r2 : Resource) (h : r1.SameUpToMapOrder r2) :
    r1.Marshal = r2.Marshal := by
  obtain ⟨htyp, hsc, hend⟩ := h
  have hrows : (r1.Endpoints.map Endpoint.Marshal) = (r2.Endpoints.map Endpoint.Marshal) :=
    endpoints_marshal_congr _ _ hend
  unfold Resource.Marshal
  simp only [foldl_append_list, htyp, hsc, hrows]

theorem marshalBody_loop_congr (rs1 rs2 : List Resource)
    (h : List.Forall₂ Resource.SameUpToMapOrder rs1 rs2) (init : List Str) :
    rs1.foldlM
      (fun ret v => do
        let m ← v.Marshal
        let ret := ret ++ m
        pure (ret ++ [[]]))
      init
    = rs2.foldlM
      (fun ret v => do
        let m ← v.Marshal
        let ret := ret ++ m
        pure (ret ++ [[]]))
      init := by
  induction h generalizing init with
  | nil => rfl
  | cons hr _ ih =>
    simp only [List.foldlM_cons, resource_marshal_congr _ _ hr]
    cases Resource.Marshal _ with
    | none => rfl
    | some m => exact ih _

theorem marshalTableOfContents_loop_congr (rs1 rs2 : List Resource)
    (h : List.Forall₂ Resource.SameUpToMapOrder rs1 rs2) (init : List Str) :
    rs1.foldlM
      (fun ret v => do
        let h ← toSentenceCase v.Typ
        pure (ret ++ ["- [".toList ++ h ++ "](#".toList ++ slug v.Typ ++ ")".toList]))
      init
    = rs2.foldlM
      (fun ret v => do
        let h ← toSentenceCase v.Typ
        pure (ret ++ ["- [".toList ++ h ++ "](#".toList ++ slug v.Typ ++ ")".toList]))
      init := by
  induction h generalizing init with
  | nil => rfl
  | cons hr _ ih =>
    simp only [List.foldlM_cons, hr.1]
    cases toSentenceCase _ with
    | none => rfl
    | some m => exact ih _

/-- C12: two catalogs that are equal except that the parameter maps of
corresponding endpoints list the same associations in a different order render
to the same table of contents, the same body and the same spliced text;
rendering is a function of the catalog, so rendering a catalog twice gives the
same lines. -/
theorem render_independent_of_map_order (p1 p2 : Page) (h : p1.SameUpToMapOrder p2) :
    p1.MarshalTableOfContents = p2.MarshalTableOfContents ∧
    p1.MarshalBody = p2.MarshalBody ∧
    (∀ D, splice p1 D = splice p2 D) := by
  have ht : p1.MarshalTableOfContents = p2.MarshalTableOfContents :=
    marshalTableOfContents_loop_congr _ _ h []
  have hb : p1.MarshalBody = p2.MarshalBody := marshalBody_loop_congr _ _ h []
  refine ⟨ht, hb, ?_⟩
  intro D
  unfold splice
  rw [ht, hb]

theorem render_independent_of_map_order_witness :
    typeFirstPage.MarshalTableOfContents = idFirstPage.MarshalTableOfContents ∧
    typeFirstPage.MarshalBody = idFirstPage.MarshalBody ∧
    (∀ D, splice typeFirstPage D = splice idFirstPage D) :=
  render_independent_of_map_order typeFirstPage idFirstPage
    (List.Forall₂.cons
      ⟨rfl, rfl, List.Forall₂.cons ⟨rfl, rfl, List.Perm.swap _ _ _, by decide⟩ List.Forall₂.nil⟩
      List.Forall₂.nil)

/-! ## Splitting a joined text -/

theorem split_append_newline (x y : Str) :
    Split (x ++ '\n' :: y) "\n".toList = Split x "\n".toList ++ Split y "\n".toList := by
  have key : ∀ x : Str, splitAux ['\n'] 0 (x ++ '\n' :: y)
      = splitAux ['\n'] 0 x ++ splitAux ['\n'] 0 y := by
    intro x
    induction x with
    | nil => simp [splitAux, HasPrefix]
    | cons c cs ih =>
      rw [List.cons_append, splitAux, splitAux, ih]
      by_cases hc : c = '\n'
      · subst hc
        simp [HasPrefix, ih]
      · have hp : ∀ t : Str, HasPrefix (c :: t) ['\n'] = false := by
          intro t
          simp [HasPrefix, hc]
        simp only [hp]
        obtain ⟨u, us, hu⟩ := List.exists_cons_of_ne_nil (splitAux_ne_nil ['\n'] 0 cs)
        rw [hu]
        simp
  exact key x

theorem split_of_no_newline (s : Str) (h : '\n' ∉ s) : Split s "\n".toList = [s] := by
  have key : ∀ s : Str, '\n' ∉ s → splitAux ['\n'] 0 s = [s] := by
    intro s
    induction s with
    | nil => intro _; simp [splitAux]
    | cons c cs ih =>
      intro h
      have hc : c ≠ '\n' := fun hc => h (by simp [hc])
      have hcs : '\n' ∉ cs := fun hcs => h (by simp [hcs])
      rw [splitAux, ih hcs]
      simp [HasPrefix, hc]
  exact key s h

theorem not_newline_mem_split (s l : Str) (h : l ∈ Split s "\n".toList) : '\n' ∉ l := by
  have key : ∀ s : Str, ∀ l ∈ splitAux ['\n'] 0 s, '\n' ∉ l := by
    intro s
    induction s with
    | nil => intro l hl; simp [splitAux] at hl; simp [hl]
    | cons c cs ih =>
      intro l hl
      rw [splitAux] at hl
      by_cases hc : c = '\n'
      · subst hc
        simp [HasPrefix] at hl
        rcases hl with rfl | hl
        · simp
        · exact ih l hl
      · have hp : HasPrefix (c :: cs) ['\n'] = false := by simp [HasPrefix, hc]
        simp only [hp] at hl
        obtain ⟨u, us, hu⟩ := List.exists_cons_of_ne_nil (splitAux_ne_nil ['\n'] 0 cs)
        rw [hu] at hl ih
        simp at hl
        rcases hl with rfl | hl
        · have := ih u (by simp)
          simp [this]
          exact fun h => hc h.symm
        · exact ih l (by simp [hl])
  exact key s l h

/-- Splitting the join of lines that hold no newline gives the lines back. -/
theorem split_join_newline (ls : List Str) (hne : ls ≠ []) (h : ∀ l ∈ ls, '\n' ∉ l) :
    Split (Join ls "\n".toList) "\n".toList = ls := by
  induction ls with
  | nil => exact absurd rfl hne
  | cons a rest ih =>
    cases rest with
    | nil => simpa [Join] using split_of_no_newline a (h a (by simp))
    | cons b bs =>
      have e1 : Join (a :: b :: bs) "\n".toList = a ++ '\n' :: Join (b :: bs) "\n".toList := by
        simp [Join]
      rw [e1, split_append_newline, split_of_no_newline a (h a (by simp)),
        ih (by simp) (fun l hl => h l (by simp [hl]))]
      rfl

theorem infix_join_of_mem (ls : List Str) (sep l : Str) (h : l ∈ ls) : l <:+: Join ls sep := by
  induction ls with
  | nil => simp at h
  | cons a rest ih =>
    cases rest with
    | nil =>
      simp at h
      subst h
      simp [Join]
    | cons b bs =>
      rw [Join]
      rcases List.mem_cons.1 h with rfl | hl
      · exact ⟨[], sep ++ Join (b :: bs) sep, by simp⟩
      · obtain ⟨u, v, huv⟩ := ih hl
        exact ⟨a ++ sep ++ u, v, by simp [← huv]⟩

/-- A text that does not contain a marker has no line containing it. -/
theorem not_contains_of_mem_split (s m l : Str) (hs : Contains s m = false)
    (hl : l ∈ Split s "\n".toList) : Contains l m = false := by
  have hinf : l <:+: s := by
    have := infix_join_of_mem (Split s "\n".toList) "\n".toList l hl
    rwa [join_split_newline] at this
  cases hc : Contains l m with
  | false => rfl
  | true =>
    have : Contains s m = true := (contains_iff s m).2 (((contains_iff l m).1 hc).trans hinf)
    rw [hs] at this
    exact absurd this (by simp)

theorem exists_first_of_mem (P : Str → Bool) (rest : List Str) (h : ∃ l ∈ rest, P l = true) :
    ∃ old e after, rest = old ++ e :: after ∧ (∀ l ∈ old, P l = false) ∧ P e = true := by
  induction rest with
  | nil => simp at h
  | cons x xs ih =>
    cases hx : P x with
    | true => exact ⟨[], x, xs, rfl, by simp, hx⟩
    | false =>
      obtain ⟨l, hl, hpl⟩ := h
      have hxs : ∃ l ∈ xs, P l = true := by
        rcases List.mem_cons.1 hl with rfl | hl
        · rw [hx] at hpl; exact absurd hpl (by simp)
        · exact ⟨l, hl, hpl⟩
      obtain ⟨old, e, after, hrest, ho, he⟩ := ih hxs
      refine ⟨x :: old, e, after, by simp [hrest], ?_, he⟩
      intro l hl
      rcases List.mem_cons.1 hl with rfl | hl
      · exact hx
      · exact ho l hl

/-! ## Regeneration -/

theorem spliceLines_eq (toc body : List Str) (D : Str) :
    spliceLines toc body D
      = Join (scan (Split D "\n".toList)).1 "\n".toList ++ "\n\n".toList ++
        Join toc "\n".toList ++ "\n\n".toList ++ Join body "\n".toList ++ "\n\n".toList ++
        Join (scan (Split D "\n".toList)).2 "\n".toList := rfl

/-- The lines of a spliced text: the prefix lines, an empty line, the lines of
the table of contents, an empty line, the lines of the body, an empty line and
the suffix lines. -/
theorem split_spliced (pre post : List Str) (T B : Str) (hpre : pre ≠ []) (hpost : post ≠ [])
    (h1 : ∀ l ∈ pre, '\n' ∉ l) (h2 : ∀ l ∈ post, '\n' ∉ l) :
    Split (Join pre "\n".toList ++ "\n\n".toList ++ T ++ "\n\n".toList ++ B ++ "\n\n".toList ++
        Join post "\n".toList) "\n".toList
      = pre ++ ([[]] ++ Split T "\n".toList ++ [[]] ++ Split B "\n".toList ++ [[]]) ++ post := by
  have e : Join pre "\n".toList ++ "\n\n".toList ++ T ++ "\n\n".toList ++ B ++ "\n\n".toList ++
        Join post "\n".toList
      = Join pre "\n".toList ++ '\n' :: ([] ++ '\n' :: (T ++ '\n' :: ([] ++ '\n' ::
          (B ++ '\n' :: ([] ++ '\n' :: Join post "\n".toList))))) := by
    simp
  rw [e, split_append_newline, split_append_newline, split_append_newline,
    split_append_newline, split_append_newline, split_append_newline,
    split_join_newline pre hpre h1, split_join_newline post hpost h2]
  simp [Split, splitAux]

/-- C18: regeneration is idempotent.  For a host document whose first line
containing `BEGIN TABLE` is not line 0 and is followed by a line containing
`END TABLE`, and a catalog whose rendered table of contents and body do not
contain `END TABLE`, splicing the spliced text again gives the same text. -/
theorem splice_idempotent (p : Page) (toc body : List Str) (D : Str)
    (before : List Str) (b : Str) (rest : List Str)
    (ht : p.MarshalTableOfContents = some toc) (hbd : p.MarshalBody = some body)
    (hT : Contains (Join toc "\n".toList) "END TABLE".toList = false)
    (hB : Contains (Join body "\n".toList) "END TABLE".toList = false)
    (hD : Split D "\n".toList = before ++ b :: rest) (hne : before ≠ [])
    (hb : ∀ l ∈ before, Contains l "BEGIN TABLE".toList = false)
    (hm : Contains b "BEGIN TABLE".toList = true)
    (he : ∃ l ∈ rest, Contains l "END TABLE".toList = true) :
    ∃ O, splice p D = some O ∧ splice p O = some O ∧
      spliceLines toc body (spliceLines toc body D) = spliceLines toc body D := by
  obtain ⟨old, e, after, hrest, ho, hee⟩ :=
    exists_first_of_mem (fun l => Contains l "END TABLE".toList) rest he
  subst hrest
  have hs : scan (Split D "\n".toList) = (before ++ [b], e :: after) := by
    rw [hD]
    exact scan_markers before b old e after hne hb hm ho hee
  have hnl : ∀ l ∈ Split D "\n".toList, '\n' ∉ l := fun l hl => not_newline_mem_split D l hl
  have hO : spliceLines toc body D
      = Join (before ++ [b]) "\n".toList ++ "\n\n".toList ++ Join toc "\n".toList ++
        "\n\n".toList ++ Join body "\n".toList ++ "\n\n".toList ++
        Join (e :: after) "\n".toList := by
    rw [spliceLines_eq, hs]
  have hsplit : Split (spliceLines toc body D) "\n".toList
      = before ++ b :: (([[]] ++ Split (Join toc "\n".toList) "\n".toList ++ [[]] ++
          Split (Join body "\n".toList) "\n".toList ++ [[]]) ++ e :: after) := by
    rw [hO, split_spliced (before ++ [b]) (e :: after) _ _ (by simp) (by simp)
      (fun l hl => hnl l (by rw [hD]; simp at hl ⊢; tauto))
      (fun l hl => hnl l (by rw [hD]; simp at hl ⊢; tauto))]
    simp
  have hmid : ∀ l ∈ [[]] ++ Split (Join toc "\n".toList) "\n".toList ++ [[]] ++
      Split (Join body "\n".toList) "\n".toList ++ [[]],
      Contains l "END TABLE".toList = false := by
    intro l hl
    simp only [List.mem_append, List.mem_singleton] at hl
    rcases hl with (((rfl | hl) | rfl) | hl) | rfl
    · decide
    · exact not_contains_of_mem_split _ _ l hT hl
    · decide
    · exact not_contains_of_mem_split _ _ l hB hl
    · decide
  have hs2 : scan (Split (spliceLines toc body D) "\n".toList) = (before ++ [b], e :: after) := by
    rw [hsplit]
    exact scan_markers before b _ e after hne hb hm hmid hee
  have hidem : spliceLines toc body (spliceLines toc body D) = spliceLines toc body D := by
    rw [spliceLines_eq toc body (spliceLines toc body D), hs2, ← hO]
  refine ⟨spliceLines toc body D, ?_, ?_, hidem⟩
  · simp [splice, ht, hbd]
  · simp [splice, ht, hbd, hidem]

theorem splice_idempotent_witness :
    ∃ O, splice scenarioPage "A\nBEGIN TABLE\nold\nEND TABLE\nB".toList = some O ∧
      splice scenarioPage O = some O ∧
      spliceLines ["- [X](#x)".toList] scenarioBody
          (spliceLines ["- [X](#x)".toList] scenarioBody
            "A\nBEGIN TABLE\nold\nEND TABLE\nB".toList)
        = spliceLines ["- [X](#x)".toList] scenarioBody
            "A\nBEGIN TABLE\nold\nEND TABLE\nB".toList :=
  splice_idempotent scenarioPage ["- [X](#x)".toList] scenarioBody
    "A\nBEGIN TABLE\nold\nEND TABLE\nB".toList ["A".toList] "BEGIN TABLE".toList
    ["old".toList, "END TABLE".toList, "B".toList]
    (by decide!) (by decide!) (by decide!) (by decide!) (by decide!) (by decide) (by decide)
    (by decide) ⟨"END TABLE".toList, by decide, by decide⟩

/-! ## Totality of the rendering -/

theorem toSentenceCase_nil : toSentenceCase [] = none := rfl

theorem resource_marshal_nil_type (r : Resource) (h : r.Typ = []) : r.Marshal = none := by
  unfold Resource.Marshal
  rw [h, toSentenceCase_nil]
  rfl

/-- The loop of `MarshalTableOfContents` panics as soon as one type label is
empty. -/
theorem marshalTableOfContents_loop_none (rs : List Resource) (init : List Str)
    (h : ∃ r ∈ rs, r.Typ = []) :
    rs.foldlM
      (fun ret v => do
        let h ← toSentenceCase v.Typ
        pure (ret ++ ["- [".toList ++ h ++ "](#".toList ++ slug v.Typ ++ ")".toList]))
      init
    = none := by
  induction rs generalizing init with
  | nil => simp at h
  | cons r rs ih =>
    rw [List.foldlM_cons]
    cases hr : toSentenceCase r.Typ with
    | none => rfl
    | some sc =>
      obtain ⟨x, hx, hxt⟩ := h
      rcases List.mem_cons.1 hx with rfl | hx
      · rw [hxt, toSentenceCase_nil] at hr
        exact absurd hr (by simp)
      · exact ih _ ⟨x, hx, hxt⟩

/-- The loop of `MarshalBody` panics as soon as one type label is empty. -/
theorem marshalBody_loop_none (rs : List Resource) (init : List Str)
    (h : ∃ r ∈ rs, r.Typ = []) :
    rs.foldlM
      (fun ret v => do
        let m ← v.Marshal
        let ret := ret ++ m
        pure (ret ++ [[]]))
      init
    = none := by
  induction rs generalizing init with
  | nil => simp at h
  | cons r rs ih =>
    rw [List.foldlM_cons]
    cases hr : r.Marshal with
    | none => rfl
    | some m =>
      obtain ⟨x, hx, hxt⟩ := h
      rcases List.mem_cons.1 hx with rfl | hx
      · rw [resource_marshal_nil_type x hxt] at hr
        exact absurd hr (by simp)
      · exact ih _ ⟨x, hx, hxt⟩

/-- C21: `toSentenceCase` panics exactly on the empty string; hence
`MarshalTableOfContents` and `MarshalBody` return their lines on every catalog
whose type labels are all non-empty (and panic on every other catalog), and in
particular they return their lines on the fixed catalog of sixteen resources. -/
theorem rendering_total_on_nonempty_types :
    (∀ s : Str, toSentenceCase s = none ↔ s = []) ∧
    (∀ p : Page, (∀ r ∈ p.Resources, r.Typ ≠ []) →
      (∃ toc, p.MarshalTableOfContents = some toc) ∧ (∃ body, p.MarshalBody = some body)) ∧
    (∀ p : Page, (∃ r ∈ p.Resources, r.Typ = []) →
      p.MarshalTableOfContents = none ∧ p.MarshalBody = none) ∧
    (∀ r ∈ page.Resources, r.Typ ≠ []) ∧
    (∃ toc, page.MarshalTableOfContents = some toc ∧ toc.length = 16) ∧
    (∃ body, page.MarshalBody = some body) ∧
    (∀ D, ∃ out, main D = some out) := by
  refine ⟨?_, ?_, ?_, page_types_ne_nil, ?_, ?_, ?_⟩
  · intro s
    constructor
    · intro h
      by_contra hne
      rw [toSentenceCase_of_ne_nil s hne] at h
      exact absurd h (by simp)
    · rintro rfl
      rfl
  · intro p hp
    exact ⟨⟨_, marshalTableOfContents_of_ne_nil p hp⟩, ⟨_, marshalBody_of_ne_nil p hp⟩⟩
  · intro p hp
    exact ⟨marshalTableOfContents_loop_none p.Resources [] hp,
      marshalBody_loop_none p.Resources [] hp⟩
  · exact ⟨_, marshalTableOfContents_of_ne_nil page page_types_ne_nil, by decide⟩
  · exact ⟨_, marshalBody_of_ne_nil page page_types_ne_nil⟩
  · intro D
    exact ⟨_, splice_of_ne_nil page D page_types_ne_nil⟩

end Permstable
